import Mathlib

/-!
Verification development for a small JS-subset-to-WASM compiler written in Rust
(sources: src/ast.rs, src/lexer.rs, src/semantic.rs, src/optimizer.rs,
src/codegen.rs, src/error.rs).

Shallow embedding conventions:
* Rust `i32` values are modelled as `Int`; arithmetic that Rust performs with
  two's-complement wraparound is modelled with an explicit `% 2^32` reduction
  (`wrap32`).  Rust `i32` division and remainder panic (abort) on a zero
  divisor and on `i32::MIN / -1` in every build profile; a panic is modelled
  as `Option.none` propagating out of the affected phase.
* Rust `f32` payloads are kept abstract: the embedding is parameterised by a
  carrier type `F` together with the operations the compiler applies to `f32`
  values (`FOps`).  Every theorem below holds for an arbitrary such carrier,
  hence in particular for IEEE-754 binary32.  Concrete witnesses instantiate
  `F := Unit`.
* Rust `HashMap` values are modelled as association lists with
  insert-at-front / first-match-lookup, which is observationally equivalent
  for the get/insert/get_mut usage in this program (the maps are never
  iterated).
-/

namespace JsWasm

/-! ## error.rs -/

/-- The four error kinds of `error.rs` (`ErrorType`). -/

inductive ErrKind where
  | lexerError
  | parserError
  | codegenError
  | semanticError
deriving DecidableEq, Repr

/-- `CompilerError` of `error.rs`: a line, a message and a kind. -/

structure CompilerError where
  line : Nat
  message : String
  error_type : ErrKind
deriving DecidableEq, Repr

/-- `CompilerError::lexer`. -/

def CompilerError.lexer (line : Nat) (message : String) : CompilerError :=
  ⟨line, message, .lexerError⟩

/-- `CompilerError::parser`. -/

def CompilerError.parserE (line : Nat) (message : String) : CompilerError :=
  ⟨line, message, .parserError⟩

/-- `CompilerError::semantic`. -/

def CompilerError.semantic (line : Nat) (message : String) : CompilerError :=
  ⟨line, message, .semanticError⟩

/-! ## ast.rs -/

/-- `Type` of `ast.rs`: the two numeric types. (Named `Ty` because `Type` is
reserved in Lean.) -/

inductive Ty where
  | i32
  | f32
deriving DecidableEq, Repr

/-- `BinOp` of `ast.rs`. -/

inductive BinOp where
  | add | sub | mul | div | mod
  | eq | ne | lt | gt | le | ge
deriving DecidableEq, Repr

/-- `UnaryOp` of `ast.rs`. -/

inductive UnaryOp where
  | neg
  | not
deriving DecidableEq, Repr

/-- `LogicalOp` of `ast.rs`. -/

inductive LogicalOp where
  | and
  | or
deriving DecidableEq, Repr

/-- `Expr` of `ast.rs`.  `F` is the abstract carrier standing for Rust `f32`
literal payloads. -/

inductive Expr (F : Type) where
  | number : Int → Expr F
  | numberF32 : F → Expr F
  | identifier : String → Expr F
  | binary : Expr F → BinOp → Expr F → Expr F
  | unary : UnaryOp → Expr F → Expr F
  | call : String → List (Expr F) → Expr F
  | logical : Expr F → LogicalOp → Expr F → Expr F

mutual
/-- `StmtKind` of `ast.rs`. -/
inductive StmtKind (F : Type) where
  | letS : String → Expr F → StmtKind F
  | constS : String → Expr F → StmtKind F
  | assign : String → Expr F → StmtKind F
  | ifS : Expr F → Stmt F → Option (Stmt F) → StmtKind F
  | whileS : Expr F → Stmt F → StmtKind F
  | forS : Option (Stmt F) → Option (Expr F) → Option (Stmt F) → Stmt F → StmtKind F
  | block : List (Stmt F) → StmtKind F
  | ret : Expr F → StmtKind F
  | breakS : StmtKind F
  | continueS : StmtKind F
  | exprS : Expr F → StmtKind F
/-- `Stmt` of `ast.rs`: a kind paired with a source line. -/
inductive Stmt (F : Type) where
  | mk : StmtKind F → Nat → Stmt F
end

/-- `Stmt::kind`. -/

def Stmt.kind {F : Type} : Stmt F → StmtKind F
  | .mk k _ => k

/-- `Stmt::line`. -/

def Stmt.line {F : Type} : Stmt F → Nat
  | .mk _ l => l

/-- `Function` of `ast.rs`. -/

structure Function (F : Type) where
  name : String
  params : List String
  param_types : Option (List Ty)
  return_type : Option Ty
  body : List (Stmt F)
  line : Nat

/-- `Program` of `ast.rs`. -/

structure Program (F : Type) where
  functions : List (Function F)
  top_level : List (Stmt F)

/-! ## Machine-integer model (Rust `i32`)

Rust's `i32` arithmetic: `+`, `-`, `*` and unary `-` reduce modulo `2^32`
into `[-2^31, 2^31)` when overflow checks are off (the release-profile
semantics, which is also what the spec calls "signed 32-bit semantics");
`/` and `%` abort the process on a zero right operand and on
`i32::MIN / -1` (in every profile), and otherwise truncate toward zero. -/

/-- Reduce an integer into the `i32` range `[-2^31, 2^31)` (two's-complement
wraparound). -/

def wrap32 (n : Int) : Int :=
  (n + 2147483648) % 4294967296 - 2147483648

/-- `n` is representable as an `i32`. -/

def inI32 (n : Int) : Prop :=
  -2147483648 ≤ n ∧ n < 2147483648

instance (n : Int) : Decidable (inI32 n) := by
  unfold inI32; infer_instance

/-- Rust `i32` division: `none` models the panic on division by zero and on
`i32::MIN / -1`; otherwise truncated division. -/

def rustDivI32 (a b : Int) : Option Int :=
  if b = 0 then none
  else if a = -2147483648 ∧ b = -1 then none
  else some (Int.tdiv a b)

/-- Rust `i32` remainder: `none` models the panic on a zero right operand and
on `i32::MIN % -1`; otherwise the truncated remainder (sign of the
dividend). -/

def rustModI32 (a b : Int) : Option Int :=
  if b = 0 then none
  else if a = -2147483648 ∧ b = -1 then none
  else some (Int.tmod a b)

/-! ## Abstract `f32` operations

The compiler applies these operations to `f32` literal payloads.  Keeping
them abstract makes every theorem hold for any interpretation, in particular
for IEEE-754 binary32 (actual float arithmetic is not shallowly embeddable). -/

/-- The `f32` operations used by the compiler, over an abstract carrier `F`:
`zero` is the literal `0.0`; `add`/`sub`/`mul`/`div`/`neg` model Rust's `f32`
arithmetic; `beq`/`bne`/`blt`/`bgt`/`ble`/`bge` model the Rust comparison
operators `==`, `!=`, `<`, `>`, `<=`, `>=` on `f32`. -/

structure FOps (F : Type) where
  zero : F
  add : F → F → F
  sub : F → F → F
  mul : F → F → F
  div : F → F → F
  neg : F → F
  beq : F → F → Bool
  bne : F → F → Bool
  blt : F → F → Bool
  bgt : F → F → Bool
  ble : F → F → Bool
  bge : F → F → Bool

/-- The trivial instantiation used for concrete witnesses (a program with no
float literals behaves identically under every carrier). -/

def unitOps : FOps Unit where
  zero := ()
  add := fun _ _ => ()
  sub := fun _ _ => ()
  mul := fun _ _ => ()
  div := fun _ _ => ()
  neg := fun _ => ()
  beq := fun _ _ => true
  bne := fun _ _ => false
  blt := fun _ _ => false
  bgt := fun _ _ => false
  ble := fun _ _ => true
  bge := fun _ _ => true

/-! ## optimizer.rs -/

variable {F : Type}

/-- The literal-pair dispatch of `fold_expr` for a binary node whose operands
are already folded (the two `if let` blocks and the fall-through of the
`Expr::Binary` arm).  Returns `none` when the Rust code would panic (integer
division/remainder with a zero right operand or `i32::MIN / -1`). -/

def fold_binary (ops : FOps F) (l : Expr F) (op : BinOp) (r : Expr F) : Option (Expr F) :=
  match l, r with
  | .number a, .number b =>
      -- "Fold i32 constants"
      match op with
      | .add => some (.number (wrap32 (a + b)))
      | .sub => some (.number (wrap32 (a - b)))
      | .mul => some (.number (wrap32 (a * b)))
      | .div => (rustDivI32 a b).map .number
      | .mod => (rustModI32 a b).map .number
      | .eq => some (.number (if a = b then 1 else 0))
      | .ne => some (.number (if a ≠ b then 1 else 0))
      | .lt => some (.number (if a < b then 1 else 0))
      | .gt => some (.number (if a > b then 1 else 0))
      | .le => some (.number (if a ≤ b then 1 else 0))
      | .ge => some (.number (if a ≥ b then 1 else 0))
  | .numberF32 a, .numberF32 b =>
      -- "Fold f32 constants"
      match op with
      | .eq => some (.number (if ops.beq a b then 1 else 0))
      | .ne => some (.number (if ops.bne a b then 1 else 0))
      | .lt => some (.number (if ops.blt a b then 1 else 0))
      | .gt => some (.number (if ops.bgt a b then 1 else 0))
      | .le => some (.number (if ops.ble a b then 1 else 0))
      | .ge => some (.number (if ops.bge a b then 1 else 0))
      | .add => some (.numberF32 (ops.add a b))
      | .sub => some (.numberF32 (ops.sub a b))
      | .mul => some (.numberF32 (ops.mul a b))
      | .div => some (.numberF32 (ops.div a b))
      | .mod =>
          -- float modulo is left unfolded
          some (.binary (.numberF32 a) .mod (.numberF32 b))
  | _, _ => some (.binary l op r)

/-- The literal dispatch of `fold_expr` for a unary node whose operand is
already folded (the two `if let` blocks and the fall-through of the
`Expr::Unary` arm). -/

def fold_unary (ops : FOps F) (op : UnaryOp) (e : Expr F) : Option (Expr F) :=
  match e with
  | .number n =>
      match op with
      | .neg => some (.number (wrap32 (-n)))
      | .not => some (.number (if n = 0 then 1 else 0))
  | .numberF32 f =>
      match op with
      | .neg => some (.numberF32 (ops.neg f))
      | .not => some (.number (if ops.beq f ops.zero then 1 else 0))
  | _ => some (.unary op e)

mutual
/-- `fold_expr` of `optimizer.rs`.  Returns `none` when the Rust code would
panic (integer division/remainder folding with a zero right operand or
`i32::MIN / -1`). -/
def fold_expr (ops : FOps F) : Expr F → Option (Expr F)
  | .binary l op r =>
      (fold_expr ops l).bind fun l' =>
        (fold_expr ops r).bind fun r' =>
          fold_binary ops l' op r'
  | .unary op e =>
      (fold_expr ops e).bind fun e' => fold_unary ops op e'
  | .call name args =>
      (fold_expr_list ops args).bind fun args' => some (.call name args')
  | .logical l op r =>
      (fold_expr ops l).bind fun l' =>
        (fold_expr ops r).bind fun r' =>
          some (.logical l' op r')
  | .number n => some (.number n)
  | .numberF32 f => some (.numberF32 f)
  | .identifier s => some (.identifier s)
/-- Element-wise folding of a call's argument list
(`args.into_iter().map(fold_expr).collect()`). -/
def fold_expr_list (ops : FOps F) : List (Expr F) → Option (List (Expr F))
  | [] => some []
  | e :: rest =>
      (fold_expr ops e).bind fun e' =>
        (fold_expr_list ops rest).bind fun rest' =>
          some (e' :: rest')
end

/-- The `is_false` test of `optimizer.rs` (`if (0)` / `if (0.0)` and loop
conditions): the expression is an integer literal `0` or a float literal
comparing `== 0.0`. -/

def lit_is_false (ops : FOps F) : Expr F → Bool
  | .number n => n = 0
  | .numberF32 f => ops.beq f ops.zero
  | _ => false

/-- The `is_true` test of `optimizer.rs`: a non-zero integer literal or a
float literal comparing `!= 0.0`. -/

def lit_is_true (ops : FOps F) : Expr F → Bool
  | .number n => n ≠ 0
  | .numberF32 f => ops.bne f ops.zero
  | _ => false

/-- Whether a statement is a `Return` (the `matches!` test in
`optimize_stmts`). -/

def is_return : Stmt F → Bool
  | .mk (.ret _) _ => true
  | _ => false

/-- The dead-`for` test of `optimize_stmt`: the (optional, already folded)
condition is a false literal. -/

def opt_cond_is_false (ops : FOps F) : Option (Expr F) → Bool
  | some ce => lit_is_false ops ce
  | none => false

/-- Folding over an optional expression (`cond.map(fold_expr)` in the `For`
arm of `optimize_stmt`), with panic propagation. -/

def fold_expr_opt (ops : FOps F) : Option (Expr F) → Option (Option (Expr F))
  | some c => (fold_expr ops c).map some
  | none => some none

mutual
/-- `optimize_stmt` of `optimizer.rs`.  `none` models a panic escaping from
`fold_expr`. -/
def optimize_stmt (ops : FOps F) : Stmt F → Option (Stmt F)
  | .mk (.letS name e) line =>
      (fold_expr ops e).bind fun e' => some (.mk (.letS name e') line)
  | .mk (.constS name e) line =>
      (fold_expr ops e).bind fun e' => some (.mk (.constS name e') line)
  | .mk (.assign name e) line =>
      (fold_expr ops e).bind fun e' => some (.mk (.assign name e') line)
  | .mk (.ifS cond thenB elseB) line =>
      (fold_expr ops cond).bind fun cond' =>
        if lit_is_false ops cond' then
          -- "if (false) - use else branch or empty block"
          optimize_if_false ops line elseB
        else if lit_is_true ops cond' then
          -- "if (non-zero constant) -> keep then only"
          optimize_stmt ops thenB
        else
          (optimize_stmt ops thenB).bind fun t =>
            (optimize_stmt_opt ops elseB).bind fun e' =>
              some (.mk (.ifS cond' t e') line)
  | .mk (.whileS cond body) line =>
      (fold_expr ops cond).bind fun cond' =>
        if lit_is_false ops cond' then
          -- "while (0) or while (0.0) -> remove entirely"
          some (.mk (.block []) line)
        else
          (optimize_stmt ops body).bind fun b =>
            some (.mk (.whileS cond' b) line)
  | .mk (.forS init cond incr body) line =>
      (optimize_stmt_opt ops init).bind fun init' =>
      (fold_expr_opt ops cond).bind fun cond' =>
      (optimize_stmt_opt ops incr).bind fun incr' =>
        -- "Dead code: for with false condition"
        if opt_cond_is_false ops cond' then
          match init' with
          | some i => some (.mk (.block [i]) line)
          | none => some (.mk (.block []) line)
        else
          (optimize_stmt ops body).bind fun b =>
            some (.mk (.forS init' cond' incr' b) line)
  | .mk (.block stmts) line =>
      (optimize_stmts ops stmts).bind fun stmts' =>
        some (.mk (.block stmts') line)
  | .mk (.ret e) line =>
      (fold_expr ops e).bind fun e' => some (.mk (.ret e') line)
  | .mk .breakS line => some (.mk .breakS line)
  | .mk .continueS line => some (.mk .continueS line)
  | .mk (.exprS e) line =>
      (fold_expr ops e).bind fun e' => some (.mk (.exprS e') line)
/-- The `if (false)` collapse of `optimize_stmt`: use the optimized else
branch, or an empty block when there is none. -/
def optimize_if_false (ops : FOps F) (line : Nat) : Option (Stmt F) → Option (Stmt F)
  | some eb => optimize_stmt ops eb
  | none => some (.mk (.block []) line)
/-- Optimization of an optional sub-statement
(`opt.map(|s| optimize_stmt(s))`), with panic propagation. -/
def optimize_stmt_opt (ops : FOps F) : Option (Stmt F) → Option (Option (Stmt F))
  | some s => (optimize_stmt ops s).map some
  | none => some none
/-- `optimize_stmts` of `optimizer.rs`: optimize each statement in order and
stop after the first `Return`. -/
def optimize_stmts (ops : FOps F) : List (Stmt F) → Option (List (Stmt F))
  | [] => some []
  | s :: rest =>
      (optimize_stmt ops s).bind fun s' =>
        if is_return s' then
          -- "Stop processing after return"
          some [s']
        else
          (optimize_stmts ops rest).bind fun rest' =>
            some (s' :: rest')
end

/-- The per-function loop body of `optimize_program`. -/

def optimize_functions (ops : FOps F) : List (Function F) → Option (List (Function F))
  | [] => some []
  | f :: rest =>
      (optimize_stmts ops f.body).bind fun b =>
        (optimize_functions ops rest).bind fun rest' =>
          some ({ f with body := b } :: rest')

/-- `optimize_program` of `optimizer.rs`. -/

def optimize_program (ops : FOps F) (p : Program F) : Option (Program F) :=
  (optimize_functions ops p.functions).bind fun fs =>
    (optimize_stmts ops p.top_level).bind fun ts =>
      some ⟨fs, ts⟩

/-! ### The post-return shape predicate (for claim C8)

`stmts_ret_ok` states, of a statement sequence, that no statement follows the
first `Return` of the sequence; `stmt_ret_ok` requires this of every
statement sequence nested anywhere inside a statement. -/

mutual
/-- Every statement sequence nested in this statement has no statement after
its first `Return`. -/
def stmt_ret_ok : Stmt F → Bool
  | .mk k _ => kind_ret_ok k
/-- Kind-level worker for `stmt_ret_ok`. -/
def kind_ret_ok : StmtKind F → Bool
  | .ifS _ t e => stmt_ret_ok t && opt_stmt_ret_ok e
  | .whileS _ b => stmt_ret_ok b
  | .forS i _ inc b => opt_stmt_ret_ok i && opt_stmt_ret_ok inc && stmt_ret_ok b
  | .block ss => stmts_ret_ok ss
  | _ => true
/-- `stmt_ret_ok` lifted to an optional sub-statement. -/
def opt_stmt_ret_ok : Option (Stmt F) → Bool
  | some s => stmt_ret_ok s
  | none => true
/-- No statement follows the first `Return` of this sequence, and every
nested sequence satisfies the same. -/
def stmts_ret_ok : List (Stmt F) → Bool
  | [] => true
  | s :: rest =>
      stmt_ret_ok s &&
      (if is_return s then rest.isEmpty else stmts_ret_ok rest)
end

/-- The post-return property over a whole program: each function body, the
top-level sequence, and (recursively) every nested block sequence. -/

def program_ret_ok (p : Program F) : Bool :=
  p.functions.all (fun f => stmts_ret_ok f.body) && stmts_ret_ok p.top_level

/-- A concrete program for the C8 witness: a function whose body continues
after a `return`, and a top-level sequence that does the same. -/

def progPostRet : Program Unit :=
  ⟨[⟨"f", [], none, none,
     [.mk (.ret (.number 1)) 1, .mk (.exprS (.number 2)) 2], 1⟩],
   [.mk (.exprS (.binary (.number 2) .add (.number 3))) 3]⟩

/-! ## semantic.rs

The analyzer's `&mut self` state is threaded explicitly: every operation maps
a `SemState` to an `Except CompilerError` result carrying the updated state.
The scope stack is a list of scopes with the innermost scope first (Rust
pushes/pops at the `Vec` tail and iterates `.rev()`; head-first lists are the
mirror image).  The two `HashMap`s are association lists with
insert-at-front and first-match lookup — observationally equivalent for this
program's get/insert/get_mut usage. -/

/-- `VarInfo` of `semantic.rs`. -/

structure VarInfo where
  is_const : Bool
  var_type : Ty
deriving DecidableEq, Repr

/-- `FunctionInfo` of `semantic.rs`. -/

structure FunctionInfo where
  param_types : Option (List Ty)
  return_type : Option Ty
deriving DecidableEq, Repr

/-- The `SemanticAnalyzer` state. -/

structure SemState where
  vars : List (List (String × VarInfo))
  functions : List (String × FunctionInfo)
  loop_depth : Nat
deriving Repr

/-- `SemanticAnalyzer::new`. -/

def SemState.new : SemState := ⟨[[]], [], 0⟩

/-- Rust `Debug` formatting of `Type` (used in error messages). -/

def tyDebug : Ty → String
  | .i32 => "I32"
  | .f32 => "F32"

/-- Walk the scope stack, innermost scope first
(`get_variable_info`). -/

def lookup_scopes : List (List (String × VarInfo)) → String → Option VarInfo
  | [], _ => none
  | scope :: rest, name =>
      match scope.lookup name with
      | some info => some info
      | none => lookup_scopes rest name

/-- `get_variable_info`. -/

def SemState.get_variable_info (st : SemState) (name : String) : Option VarInfo :=
  lookup_scopes st.vars name

/-- `is_variable_defined`. -/

def SemState.is_variable_defined (st : SemState) (name : String) : Bool :=
  (st.get_variable_info name).isSome

/-- `is_variable_const`. -/

def SemState.is_variable_const (st : SemState) (name : String) : Bool :=
  ((st.get_variable_info name).map (·.is_const)).getD false

/-- `get_variable_type`. -/

def SemState.get_variable_type (st : SemState) (name : String) : Option Ty :=
  (st.get_variable_info name).map (·.var_type)

/-- `enter_scope`. -/

def SemState.enter_scope (st : SemState) : SemState :=
  { st with vars := [] :: st.vars }

/-- `exit_scope` (`Vec::pop`; popping an empty stack is a no-op, as in
Rust). -/

def SemState.exit_scope (st : SemState) : SemState :=
  { st with vars := st.vars.tail }

/-- Insert a binding in the innermost scope
(`self.variables.last_mut().unwrap().insert(..)`).  The Rust `unwrap` cannot
fail: the stack starts non-empty and `enter_scope`/`exit_scope` calls are
balanced; the `[]` case below is unreachable. -/

def SemState.insert_var (st : SemState) (name : String) (info : VarInfo) : SemState :=
  match st.vars with
  | top :: rest => { st with vars := ((name, info) :: top) :: rest }
  | [] => { st with vars := [[(name, info)]] }

/-- `self.functions.get(name)`. -/

def SemState.lookup_fun (st : SemState) (name : String) : Option FunctionInfo :=
  st.functions.lookup name

/-- `self.functions.insert(name, info)` (insert-at-front shadows any older
entry, matching `HashMap::insert` overwrite for lookups). -/

def SemState.insert_fun (st : SemState) (name : String) (info : FunctionInfo) : SemState :=
  { st with functions := (name, info) :: st.functions }

/-- Update the first (lookup-visible) entry of an association list. -/

def update_first (name : String) (f : FunctionInfo → FunctionInfo) :
    List (String × FunctionInfo) → List (String × FunctionInfo)
  | [] => []
  | (k, v) :: rest =>
      if k = name then (k, f v) :: rest else (k, v) :: update_first name f rest

/-- `self.functions.get_mut(name)` followed by a field mutation.  A missing
entry is a no-op (the Rust `unwrap`s on this path are unreachable because
every program function is registered first). -/

def SemState.update_fun (st : SemState) (name : String)
    (f : FunctionInfo → FunctionInfo) : SemState :=
  { st with functions := update_first name f st.functions }

/-- The comparison test of `infer_expr_type` for binary operators
(`matches!(op, Eq | Ne | Lt | Gt | Le | Ge)`). -/

def is_comparison : BinOp → Bool
  | .eq | .ne | .lt | .gt | .le | .ge => true
  | _ => false

/-- First index with differing parameter type, with the two types
(the `for (i, (expected, actual))` loop of the call check). -/

def find_mismatch : List Ty → List Ty → Nat → Option (Nat × Ty × Ty)
  | e :: es, a :: as_, i =>
      if e ≠ a then some (i, e, a) else find_mismatch es as_ (i + 1)
  | _, _, _ => none

mutual
/-- `infer_expr_type` of `semantic.rs`.  Carries the state because a `Call`
expression can set the callee's `param_types` (first-call-wins). -/
def infer_expr_type (st : SemState) (e : Expr F) (line : Nat) :
    Except CompilerError (Ty × SemState) :=
  match e with
  | .number _ => .ok (.i32, st)
  | .numberF32 _ => .ok (.f32, st)
  | .identifier name =>
      match st.get_variable_type name with
      | some t => .ok (t, st)
      | none =>
          if (st.lookup_fun name).isSome then
            .error (.semantic line ("Cannot use function '" ++ name ++ "' as a value"))
          else
            .error (.semantic line ("Undefined variable '" ++ name ++ "'"))
  | .binary l op r =>
      (infer_expr_type st l line).bind fun (lt, st1) =>
        (infer_expr_type st1 r line).bind fun (rt, st2) =>
          -- "Check modulo restriction"
          if op = .mod ∧ (lt = .f32 ∨ rt = .f32) then
            .error (.semantic line "Modulo operation not supported for f32 types")
          -- "Comparison operations always return i32"
          else if is_comparison op then .ok (.i32, st2)
          -- "Arithmetic operations: widen to f32 if either operand is f32"
          else if lt = .f32 ∨ rt = .f32 then .ok (.f32, st2)
          else .ok (.i32, st2)
  | .unary op operand =>
      (infer_expr_type st operand line).bind fun (t, st1) =>
        match op with
        | .neg => .ok (t, st1)
        | .not => .ok (.i32, st1)
  | .call name args =>
      (infer_args st args line).bind fun (arg_types, st1) =>
        match st1.lookup_fun name with
        | none => .error (.semantic line ("Undefined function '" ++ name ++ "'"))
        | some func_info =>
            match func_info.param_types with
            | none =>
                -- "First-call wins: set parameter types"
                let st2 := st1.update_fun name
                  (fun fi => { fi with param_types := some arg_types })
                .ok (func_info.return_type.getD .i32, st2)
            | some expected =>
                -- "Validate subsequent calls match"
                if expected.length ≠ arg_types.length then
                  .error (.semantic line
                    ("Function '" ++ name ++ "' expects " ++
                     toString expected.length ++ " arguments, got " ++
                     toString arg_types.length))
                else
                  match find_mismatch expected arg_types 0 with
                  | some (i, exp, act) =>
                      .error (.semantic line
                        ("Function '" ++ name ++ "' parameter " ++ toString i ++
                         " type mismatch: expected " ++ tyDebug exp ++
                         ", got " ++ tyDebug act))
                  | none => .ok (func_info.return_type.getD .i32, st1)
  | .logical l _ r =>
      (infer_expr_type st l line).bind fun (lt, st1) =>
        (infer_expr_type st1 r line).bind fun (rt, st2) =>
          -- "widen to f32 if either is f32"
          if lt = .f32 ∨ rt = .f32 then .ok (.f32, st2)
          else .ok (.i32, st2)
/-- Sequential inference of the argument list of a call
(`args.iter().map(..).collect::<Result<..>>()`). -/
def infer_args (st : SemState) (args : List (Expr F)) (line : Nat) :
    Except CompilerError (List Ty × SemState) :=
  match args with
  | [] => .ok ([], st)
  | a :: rest =>
      (infer_expr_type st a line).bind fun (t, st1) =>
        (infer_args st1 rest line).bind fun (ts, st2) =>
          .ok (t :: ts, st2)
end

mutual
/-- `analyze_stmt` of `semantic.rs`. -/
def analyze_stmt (st : SemState) (s : Stmt F) : Except CompilerError SemState :=
  match s with
  | .mk (.letS name e) line =>
      (infer_expr_type st e line).bind fun (t, st1) =>
        .ok (st1.insert_var name ⟨false, t⟩)
  | .mk (.constS name e) line =>
      (infer_expr_type st e line).bind fun (t, st1) =>
        .ok (st1.insert_var name ⟨true, t⟩)
  | .mk (.assign name e) line =>
      if ¬ st.is_variable_defined name then
        .error (.semantic line ("Undefined variable '" ++ name ++ "'"))
      else if st.is_variable_const name then
        .error (.semantic line ("Cannot reassign const variable '" ++ name ++ "'"))
      else
        -- the Rust `unwrap` cannot fail: the binding exists (checked above)
        let var_type := (st.get_variable_type name).getD .i32
        (infer_expr_type st e line).bind fun (et, st1) =>
          if var_type ≠ et then
            .error (.semantic line
              ("Type mismatch: cannot assign " ++ tyDebug et ++ " to " ++
               tyDebug var_type ++ " variable '" ++ name ++ "'"))
          else .ok st1
  | .mk (.ifS cond thenB elseB) line =>
      (infer_expr_type st cond line).bind fun (_, st1) =>
        (analyze_stmt st1 thenB).bind fun st2 =>
          match elseB with
          | some eb => analyze_stmt st2 eb
          | none => .ok st2
  | .mk (.whileS cond body) line =>
      (infer_expr_type st cond line).bind fun (_, st1) =>
        (analyze_stmt { st1 with loop_depth := st1.loop_depth + 1 } body).bind fun st2 =>
          .ok { st2 with loop_depth := st2.loop_depth - 1 }
  | .mk (.forS init cond incr body) line =>
      -- "For loops need their own scope for the init variable"
      (analyze_stmt_opt st.enter_scope init).bind fun st1 =>
        (infer_expr_opt st1 cond line).bind fun st2 =>
          (analyze_stmt { st2 with loop_depth := st2.loop_depth + 1 } body).bind fun st3 =>
            (analyze_stmt_opt st3 incr).bind fun st4 =>
              .ok ({ st4 with loop_depth := st4.loop_depth - 1 }).exit_scope
  | .mk (.block stmts) _ =>
      (analyze_stmts st.enter_scope stmts).bind fun st1 =>
        .ok st1.exit_scope
  | .mk (.ret e) line =>
      (infer_expr_type st e line).bind fun (_, st1) => .ok st1
  | .mk .breakS line =>
      if st.loop_depth = 0 then
        .error (.semantic line "Break statement outside of loop")
      else .ok st
  | .mk .continueS line =>
      if st.loop_depth = 0 then
        .error (.semantic line "Continue statement outside of loop")
      else .ok st
  | .mk (.exprS e) line =>
      (infer_expr_type st e line).bind fun (_, st1) => .ok st1
/-- Analysis of an optional sub-statement (the `if let Some(..)` wrappers in
the `For` arm). -/
def analyze_stmt_opt (st : SemState) (o : Option (Stmt F)) :
    Except CompilerError SemState :=
  match o with
  | some s => analyze_stmt st s
  | none => .ok st
/-- Type inference of an optional condition expression (the
`if let Some(cond_expr)` wrapper in the `For` arm; the inferred type is
dropped). -/
def infer_expr_opt (st : SemState) (o : Option (Expr F)) (line : Nat) :
    Except CompilerError SemState :=
  match o with
  | some c => (infer_expr_type st c line).bind fun (_, st1) => .ok st1
  | none => .ok st
/-- `analyze_stmts` of `semantic.rs`. -/
def analyze_stmts (st : SemState) (stmts : List (Stmt F)) :
    Except CompilerError SemState :=
  match stmts with
  | [] => .ok st
  | s :: rest =>
      (analyze_stmt st s).bind fun st1 => analyze_stmts st1 rest
end

mutual
/-- The accumulator loop of `infer_return_type_from_stmts`: fold each
statement's discovered return type into the accumulator, failing on a
disagreement ("Inconsistent return types"). -/
def infer_return_loop (st : SemState) (acc : Option Ty) (stmts : List (Stmt F)) :
    Except CompilerError (Option Ty × SemState) :=
  match stmts with
  | [] => .ok (acc, st)
  | s :: rest =>
      (infer_return_stmt st s).bind fun (found, st1) =>
        match found with
        | some ft =>
            match acc with
            | some et =>
                if et ≠ ft then
                  .error (.semantic s.line
                    ("Inconsistent return types: expected " ++ tyDebug et ++
                     ", got " ++ tyDebug ft))
                else infer_return_loop st1 acc rest
            | none => infer_return_loop st1 (some ft) rest
        | none => infer_return_loop st1 acc rest
/-- The per-statement body of `infer_return_type_from_stmts`: the return
type discovered inside one statement.  The Rust code recurses through
`If`/`While`/`For` bodies by calling itself on the one-element slice
`&[*branch.clone()]`; for a single statement and an empty accumulator that
loop is exactly the per-statement inference, so those calls are modelled as
direct recursion here.  Note the `If` arm merges the two branches with
`Option::or`, keeping the then-branch's type when both are present. -/
def infer_return_stmt (st : SemState) (s : Stmt F) :
    Except CompilerError (Option Ty × SemState) :=
  match s with
  | .mk (.ret e) line =>
      (infer_expr_type st e line).bind fun (t, st1) => .ok (some t, st1)
  | .mk (.ifS _ thenB elseB) _ =>
      (infer_return_stmt st thenB).bind fun (tt, st1) =>
        match elseB with
        | some eb =>
            (infer_return_stmt st1 eb).bind fun (et, st2) =>
              .ok (tt.or et, st2)
        | none => .ok (tt.or none, st1)
  | .mk (.whileS _ body) _ => infer_return_stmt st body
  | .mk (.forS _ _ _ body) _ => infer_return_stmt st body
  | .mk (.block stmts) _ => infer_return_loop st none stmts
  | .mk (.letS _ _) _ => .ok (none, st)
  | .mk (.constS _ _) _ => .ok (none, st)
  | .mk (.assign _ _) _ => .ok (none, st)
  | .mk .breakS _ => .ok (none, st)
  | .mk .continueS _ => .ok (none, st)
  | .mk (.exprS _) _ => .ok (none, st)
end

/-- `infer_return_type_from_stmts` of `semantic.rs`. -/

def infer_return_type_from_stmts (st : SemState) (stmts : List (Stmt F)) :
    Except CompilerError (Option Ty × SemState) :=
  infer_return_loop st none stmts

/-- Insert the parameters into the (fresh) innermost scope with the given
types (`func.params.iter().zip(param_types.iter())`; `zip` stops at the
shorter list, as in Rust). -/

def insert_params (st : SemState) : List String → List Ty → SemState
  | p :: ps, t :: ts => insert_params (st.insert_var p ⟨false, t⟩) ps ts
  | _, _ => st

/-- `analyze_function_with_params` of `semantic.rs`. -/

def analyze_function_with_params (st : SemState) (func : Function F)
    (param_types : List Ty) : Except CompilerError SemState :=
  let st1 := insert_params st.enter_scope func.params param_types
  -- "Analyze body statements FIRST so variables are declared"
  (analyze_stmts st1 func.body).bind fun st2 =>
    -- "THEN infer return type by searching for Return statements"
    (infer_return_type_from_stmts st2 func.body).bind fun (rt, st3) =>
      -- "Store return type (default to i32 if no return)"
      let st4 := st3.update_fun func.name
        (fun fi => { fi with return_type := some (rt.getD .i32) })
      .ok st4.exit_scope

/-- The registration loop of `analyze`: every function name maps to
`{param_types: None, return_type: None}`. -/

def register_functions (st : SemState) : List (Function F) → SemState
  | [] => st
  | f :: rest => register_functions (st.insert_fun f.name ⟨none, none⟩) rest

/-- The first function pass of `analyze`: each function body is analyzed
with every parameter defaulted to `I32`. -/

def analyze_pass1 (st : SemState) : List (Function F) → Except CompilerError SemState
  | [] => .ok st
  | f :: rest =>
      (analyze_function_with_params st f (List.replicate f.params.length .i32)).bind
        fun st1 => analyze_pass1 st1 rest

/-- The second function pass of `analyze`: re-analyze each function whose
`param_types` were fixed by a call. -/

def analyze_pass2 (st : SemState) : List (Function F) → Except CompilerError SemState
  | [] => .ok st
  | f :: rest =>
      match (st.lookup_fun f.name).bind (·.param_types) with
      | some pt =>
          (analyze_function_with_params st f pt).bind fun st1 =>
            analyze_pass2 st1 rest
      | none => analyze_pass2 st rest

/-- The write-back loop of `analyze`: copy the inferred signature of each
function into its AST node.  A missing map entry is impossible (every
function is registered); the identity fallback mirrors the unreachable
`unwrap`. -/

def write_back (st : SemState) : List (Function F) → List (Function F)
  | [] => []
  | f :: rest =>
      (match st.lookup_fun f.name with
       | some fi => { f with param_types := fi.param_types,
                             return_type := fi.return_type }
       | none => f) :: write_back st rest

/-- `analyze` of `semantic.rs`, returning the annotated program (the Rust
code mutates it in place). -/

def analyze (p : Program F) : Except CompilerError (Program F) :=
  let st1 := register_functions SemState.new p.functions
  (analyze_pass1 st1 p.functions).bind fun st2 =>
    (analyze_stmts st2 p.top_level).bind fun st3 =>
      (analyze_pass2 st3 p.functions).bind fun st4 =>
        .ok ⟨write_back st4 p.functions, p.top_level⟩

/-! ### Call-free syntax predicates (for claims C4/C5)

`expr_no_call f e` states that no call to function `f` occurs anywhere in
`e`; likewise for statements and programs. -/

mutual
/-- No call to `f` occurs in this expression. -/
def expr_no_call (f : String) : Expr F → Bool
  | .number _ => true
  | .numberF32 _ => true
  | .identifier _ => true
  | .binary l _ r => expr_no_call f l && expr_no_call f r
  | .unary _ e => expr_no_call f e
  | .call name args => name ≠ f && exprs_no_call f args
  | .logical l _ r => expr_no_call f l && expr_no_call f r
/-- No call to `f` occurs in this expression list. -/
def exprs_no_call (f : String) : List (Expr F) → Bool
  | [] => true
  | e :: rest => expr_no_call f e && exprs_no_call f rest
end

/-- No call to `f` occurs in this optional expression. -/

def opt_expr_no_call (f : String) : Option (Expr F) → Bool
  | some e => expr_no_call f e
  | none => true

mutual
/-- No call to `f` occurs in this statement. -/
def stmt_no_call (f : String) : Stmt F → Bool
  | .mk (.letS _ e) _ => expr_no_call f e
  | .mk (.constS _ e) _ => expr_no_call f e
  | .mk (.assign _ e) _ => expr_no_call f e
  | .mk (.ifS c t e) _ =>
      expr_no_call f c && stmt_no_call f t && opt_stmt_no_call f e
  | .mk (.whileS c b) _ => expr_no_call f c && stmt_no_call f b
  | .mk (.forS i c n b) _ =>
      opt_stmt_no_call f i && opt_expr_no_call f c &&
      opt_stmt_no_call f n && stmt_no_call f b
  | .mk (.block ss) _ => stmts_no_call f ss
  | .mk (.ret e) _ => expr_no_call f e
  | .mk .breakS _ => true
  | .mk .continueS _ => true
  | .mk (.exprS e) _ => expr_no_call f e
/-- No call to `f` occurs in this optional statement. -/
def opt_stmt_no_call (f : String) : Option (Stmt F) → Bool
  | some s => stmt_no_call f s
  | none => true
/-- No call to `f` occurs in this statement sequence. -/
def stmts_no_call (f : String) : List (Stmt F) → Bool
  | [] => true
  | s :: rest => stmt_no_call f s && stmts_no_call f rest
end

/-- No call to `f` occurs anywhere in the program (function bodies or
top-level statements). -/

def program_no_call (f : String) (p : Program F) : Bool :=
  p.functions.all (fun fn => stmts_no_call f fn.body) &&
  stmts_no_call f p.top_level

/-! ### Function-map invariants of the analyzer (for claims C4/C5)

The `functions` map is only ever written in three places: registration
(inserting `⟨none, none⟩`), the `Call` arm of `infer_expr_type` (setting
`param_types`), and `analyze_function_with_params` (setting `return_type`).
`funs_mono` captures what every analyzer step preserves: known entries stay
present, and a `Some` return type stays `Some`. -/

/-- The map entry for `g` exists and carries a `Some` return type. -/

def retSome (st : SemState) (g : String) : Prop :=
  ((st.lookup_fun g).bind fun fi => fi.return_type).isSome = true

/-- Monotone evolution of the functions map: presence and `Some`-ness of the
return type are preserved. -/

def funs_mono (st st' : SemState) : Prop :=
  ∀ g, ((st.lookup_fun g).isSome = true → (st'.lookup_fun g).isSome = true) ∧
       (retSome st g → retSome st' g)

/-- The `param_types` view of `f`'s map entry (`none` when the entry is
absent). -/

def params_view (st : SemState) (f : String) : Option (Option (List Ty)) :=
  (st.lookup_fun f).map fun fi => fi.param_types

/-- A concrete program for the C9 witness. -/

def progIdem : Program Unit :=
  ⟨[], [.mk (.exprS (.binary (.number 2) .add (.number 3))) 1]⟩

/-- The program `function f(x){}` (never called): analysis succeeds but
leaves `param_types = None`. -/

def progUncalled : Program Unit := ⟨[⟨"f", ["x"], none, none, [], 1⟩], []⟩

/-! ## codegen.rs

The emitter's `&mut self` state is threaded explicitly.  `output.push` is
modelled as appending to a string list; `HashMap`s are association lists
with insert-at-front / first-match lookup (`get`/`insert` only); the
`loop_stack` `Vec` (push/pop/last at the tail) is modelled head-first. -/

/-- The `CodeGen` state of `codegen.rs`. -/

structure CodeGen where
  output : List String
  function_return_types : List (String × Ty)
  label_counter : Nat
  loop_stack : List Nat
  variable_types : List (String × Ty)

/-- `CodeGen::new`. -/

def CodeGen.new : CodeGen := ⟨[], [], 0, [], []⟩

/-- `self.output.push(..)`. -/

def CodeGen.push (cg : CodeGen) (s : String) : CodeGen :=
  { cg with output := cg.output ++ [s] }

/-- `type_to_wasm` of `codegen.rs`. -/

def type_to_wasm : Ty → String
  | .i32 => "i32"
  | .f32 => "f32"

/-- `infer_expr_type_quick` of `codegen.rs`: the emitter's local re-inference
of expression types (pure; no map mutation). -/

def infer_expr_type_quick (cg : CodeGen) : Expr F → Ty
  | .number _ => .i32
  | .numberF32 _ => .f32
  | .binary l op r =>
      let lt := infer_expr_type_quick cg l
      let rt := infer_expr_type_quick cg r
      if is_comparison op then .i32
      else if lt = .f32 ∨ rt = .f32 then .f32
      else .i32
  | .unary op operand =>
      match op with
      | .neg => infer_expr_type_quick cg operand
      | .not => .i32
  | .logical l _ r =>
      let lt := infer_expr_type_quick cg l
      let rt := infer_expr_type_quick cg r
      if lt = .f32 ∨ rt = .f32 then .f32 else .i32
  | .identifier name => (cg.variable_types.lookup name).getD .i32
  | .call name _ => (cg.function_return_types.lookup name).getD .i32

mutual
/-- `collect_variable_types` of `codegen.rs`. -/
def collect_variable_types (cg : CodeGen) : List (Stmt F) → CodeGen
  | [] => cg
  | s :: rest => collect_variable_types (collect_var_stmt cg s) rest
/-- One iteration of the `collect_variable_types` loop. -/
def collect_var_stmt (cg : CodeGen) : Stmt F → CodeGen
  | .mk (.letS name e) _ =>
      { cg with variable_types := (name, infer_expr_type_quick cg e) :: cg.variable_types }
  | .mk (.constS name e) _ =>
      { cg with variable_types := (name, infer_expr_type_quick cg e) :: cg.variable_types }
  | .mk (.block inner) _ => collect_variable_types cg inner
  | .mk (.ifS _ t e) _ =>
      let cg1 := match t with
                 | .mk (.block ss) _ => collect_variable_types cg ss
                 | _ => cg
      match e with
      | some eb =>
          match eb with
          | .mk (.block ss) _ => collect_variable_types cg1 ss
          | _ => cg1
      | none => cg1
  | .mk (.whileS _ b) _ =>
      match b with
      | .mk (.block ss) _ => collect_variable_types cg ss
      | _ => cg
  | .mk (.forS init _ _ b) _ =>
      let cg1 := match init with
                 | some (.mk (.letS name e) _) =>
                     { cg with variable_types :=
                         (name, infer_expr_type_quick cg e) :: cg.variable_types }
                 | some (.mk (.constS name e) _) =>
                     { cg with variable_types :=
                         (name, infer_expr_type_quick cg e) :: cg.variable_types }
                 | _ => cg
      match b with
      | .mk (.block ss) _ => collect_variable_types cg1 ss
      | _ => cg1
  | _ => cg
end

mutual
/-- `collect_locals_rec` of `codegen.rs`.  The Rust code recurses through
single branches via one-element slices; those calls are modelled as the
per-statement worker `collect_locals_stmt`. -/
def collect_locals_rec (stmts : List (Stmt F)) (locals : List String) : List String :=
  match stmts with
  | [] => locals
  | s :: rest => collect_locals_rec rest (collect_locals_stmt s locals)
/-- One iteration of the `collect_locals_rec` loop. -/
def collect_locals_stmt (s : Stmt F) (locals : List String) : List String :=
  match s with
  | .mk (.letS name _) _ => if locals.contains name then locals else locals ++ [name]
  | .mk (.constS name _) _ => if locals.contains name then locals else locals ++ [name]
  | .mk (.block inner) _ => collect_locals_rec inner locals
  | .mk (.ifS _ t e) _ =>
      let l1 := collect_locals_stmt t locals
      match e with
      | some eb => collect_locals_stmt eb l1
      | none => l1
  | .mk (.whileS _ b) _ => collect_locals_stmt b locals
  | .mk (.forS init _ _ b) _ =>
      let l1 := match init with
                | some i => collect_locals_stmt i locals
                | none => locals
      collect_locals_stmt b l1
  | _ => locals
end

/-- `collect_locals` of `codegen.rs`. -/

def collect_locals (stmts : List (Stmt F)) (exclude : List String) : List String :=
  (collect_locals_rec stmts []).filter fun l => ¬ exclude.contains l

/-- `emit_line_comment`. -/

def emit_line_comment (cg : CodeGen) (line : Nat) : CodeGen :=
  cg.push ("    ;; line " ++ toString line)

mutual
/-- `gen_expr` of `codegen.rs` (infallible in the source: it returns `()`).
`showF` models Rust's `Display` for `f32` literal payloads. -/
def gen_expr (showF : F → String) (cg : CodeGen) (e : Expr F) (vars : List String) :
    CodeGen :=
  match e with
  | .number n => cg.push ("    i32.const " ++ toString n)
  | .numberF32 f => cg.push ("    f32.const " ++ showF f)
  | .identifier name => cg.push ("    local.get $" ++ name)
  | .binary l op r =>
      let lt := infer_expr_type_quick cg l
      let rt := infer_expr_type_quick cg r
      let cg1 := gen_expr showF cg l vars
      let cg2 := if lt = .i32 ∧ rt = .f32 then cg1.push "    f32.convert_i32_s" else cg1
      let cg3 := gen_expr showF cg2 r vars
      let cg4 := if rt = .i32 ∧ lt = .f32 then cg3.push "    f32.convert_i32_s" else cg3
      let use_f32 := lt = .f32 ∨ rt = .f32
      let instr :=
        if use_f32 then
          match op with
          | .add => "f32.add"
          | .sub => "f32.sub"
          | .mul => "f32.mul"
          | .div => "f32.div"
          | .mod => "f32.rem"
          | .eq => "f32.eq"
          | .ne => "f32.ne"
          | .lt => "f32.lt"
          | .gt => "f32.gt"
          | .le => "f32.le"
          | .ge => "f32.ge"
        else
          match op with
          | .add => "i32.add"
          | .sub => "i32.sub"
          | .mul => "i32.mul"
          | .div => "i32.div_s"
          | .mod => "i32.rem_s"
          | .eq => "i32.eq"
          | .ne => "i32.ne"
          | .lt => "i32.lt_s"
          | .gt => "i32.gt_s"
          | .le => "i32.le_s"
          | .ge => "i32.ge_s"
      cg4.push ("    " ++ instr)
  | .unary op operand =>
      let ot := infer_expr_type_quick cg operand
      match op with
      | .neg =>
          if ot = .f32 then
            (gen_expr showF cg operand vars).push "    f32.neg"
          else
            ((gen_expr showF (cg.push "    i32.const 0") operand vars).push "    i32.sub")
      | .not =>
          let cg1 := gen_expr showF cg operand vars
          if ot = .f32 then
            (cg1.push "    f32.const 0.0").push "    f32.eq"
          else
            cg1.push "    i32.eqz"
  | .call name args =>
      (gen_expr_args showF cg args vars).push ("    call $" ++ name)
  | .logical l op r =>
      let lt := infer_expr_type_quick cg l
      let rt := infer_expr_type_quick cg r
      let result_type : Ty := if lt = .f32 ∨ rt = .f32 then .f32 else .i32
      match op with
      | .and =>
          let cg1 := gen_expr showF cg l vars
          let cg2 := if lt = .i32 ∧ result_type = .f32 then
                       cg1.push "    f32.convert_i32_s" else cg1
          let cg3 := cg2.push "    local.tee $_result"
          let cg4 := if result_type = .f32 then
                       (cg3.push "    f32.const 0.0").push "    f32.eq"
                     else cg3.push "    i32.eqz"
          let cg5 := cg4.push ("    if (result " ++ type_to_wasm result_type ++ ")")
          let cg6 := (cg5.push "    local.get $_result").push "    else"
          let cg7 := gen_expr showF cg6 r vars
          let cg8 := if rt = .i32 ∧ result_type = .f32 then
                       cg7.push "    f32.convert_i32_s" else cg7
          cg8.push "    end"
      | .or =>
          let cg1 := gen_expr showF cg l vars
          let cg2 := if lt = .i32 ∧ result_type = .f32 then
                       cg1.push "    f32.convert_i32_s" else cg1
          let cg3 := cg2.push "    local.tee $_result"
          let cg4 := if result_type = .f32 then
                       (cg3.push "    f32.const 0.0").push "    f32.ne"
                     else (cg3.push "    i32.const 0").push "    i32.ne"
          let cg5 := cg4.push ("    if (result " ++ type_to_wasm result_type ++ ")")
          let cg6 := (cg5.push "    local.get $_result").push "    else"
          let cg7 := gen_expr showF cg6 r vars
          let cg8 := if rt = .i32 ∧ result_type = .f32 then
                       cg7.push "    f32.convert_i32_s" else cg7
          cg8.push "    end"
/-- The argument loop of `gen_expr`'s `Call` arm. -/
def gen_expr_args (showF : F → String) (cg : CodeGen) (args : List (Expr F))
    (vars : List String) : CodeGen :=
  match args with
  | [] => cg
  | a :: rest => gen_expr_args showF (gen_expr showF cg a vars) rest vars
end

mutual
/-- `gen_stmt` of `codegen.rs`.  Its `Result` return mirrors the source; no
arm constructs an error. -/
def gen_stmt (showF : F → String) (cg : CodeGen) (s : Stmt F) (vars : List String) :
    Except CompilerError CodeGen :=
  match s with
  | .mk (.letS name e) line =>
      let cg1 := emit_line_comment cg line
      .ok ((gen_expr showF cg1 e vars).push ("    local.set $" ++ name))
  | .mk (.constS name e) line =>
      let cg1 := emit_line_comment cg line
      .ok ((gen_expr showF cg1 e vars).push ("    local.set $" ++ name))
  | .mk (.assign name e) line =>
      let cg1 := emit_line_comment cg line
      .ok ((gen_expr showF cg1 e vars).push ("    local.set $" ++ name))
  | .mk (.ifS cond thenB elseB) line =>
      let cg1 := emit_line_comment cg line
      let cg2 := gen_expr showF cg1 cond vars
      let cond_type := infer_expr_type_quick cg1 cond
      let cg3 := if cond_type = .f32 then
                   (cg2.push "    f32.const 0.0").push "    f32.ne"
                 else cg2
      match elseB with
      | some eb =>
          (gen_stmt showF (cg3.push "    if") thenB vars).bind fun cg4 =>
            (gen_stmt showF (cg4.push "    else") eb vars).bind fun cg5 =>
              .ok (cg5.push "    end")
      | none =>
          (gen_stmt showF (cg3.push "    if") thenB vars).bind fun cg4 =>
            .ok (cg4.push "    end")
  | .mk (.whileS cond body) line =>
      let cg1 := emit_line_comment cg line
      let id := cg1.label_counter
      let cg2 := { cg1 with label_counter := id + 1, loop_stack := id :: cg1.loop_stack }
      let cg3 := (cg2.push ("    block $break_" ++ toString id)).push
                   ("    loop $continue_" ++ toString id)
      let cg4 := gen_expr showF cg3 cond vars
      let cond_type := infer_expr_type_quick cg3 cond
      let cg5 := if cond_type = .f32 then
                   (cg4.push "    f32.const 0.0").push "    f32.eq"
                 else cg4.push "    i32.eqz"
      let cg6 := cg5.push ("    br_if $break_" ++ toString id)
      (gen_stmt showF cg6 body vars).bind fun cg7 =>
        let cg8 := ((cg7.push ("    br $continue_" ++ toString id)).push "    end").push "    end"
        .ok { cg8 with loop_stack := cg8.loop_stack.tail }
  | .mk (.forS init cond incr body) line =>
      let cg1 := emit_line_comment cg line
      (gen_stmt_opt showF cg1 init vars).bind fun cg2 =>
        let id := cg2.label_counter
        let cg3 := { cg2 with label_counter := id + 1, loop_stack := id :: cg2.loop_stack }
        let cg4 := (cg3.push ("    block $break_" ++ toString id)).push
                     ("    loop $loop_" ++ toString id)
        let cg5 :=
          match cond with
          | some ce =>
              let cg5a := gen_expr showF cg4 ce vars
              let cond_type := infer_expr_type_quick cg4 ce
              let cg5b := if cond_type = Ty.f32 then
                            (cg5a.push "    f32.const 0.0").push "    f32.eq"
                          else cg5a.push "    i32.eqz"
              cg5b.push ("    br_if $break_" ++ toString id)
          | none => cg4
        let cg6 := cg5.push ("    block $continue_" ++ toString id)
        (gen_stmt showF cg6 body vars).bind fun cg7 =>
          let cg8 := cg7.push "    end"
          (gen_stmt_opt showF cg8 incr vars).bind fun cg9 =>
            let cg10 := ((cg9.push ("    br $loop_" ++ toString id)).push "    end").push "    end"
            .ok { cg10 with loop_stack := cg10.loop_stack.tail }
  | .mk (.block stmts) line =>
      let cg1 := emit_line_comment cg line
      gen_stmts showF cg1 stmts vars
  | .mk (.ret e) line =>
      let cg1 := emit_line_comment cg line
      match e with
      | .call name args =>
          -- "Tail call"
          .ok ((gen_expr_args showF cg1 args vars).push ("    return_call $" ++ name))
      | _ =>
          .ok ((gen_expr showF cg1 e vars).push "    return")
  | .mk .breakS line =>
      let cg1 := emit_line_comment cg line
      match cg1.loop_stack.head? with
      | some loop_id => .ok (cg1.push ("    br $break_" ++ toString loop_id))
      | none => .ok cg1
  | .mk .continueS line =>
      let cg1 := emit_line_comment cg line
      match cg1.loop_stack.head? with
      | some loop_id => .ok (cg1.push ("    br $continue_" ++ toString loop_id))
      | none => .ok cg1
  | .mk (.exprS e) line =>
      let cg1 := emit_line_comment cg line
      .ok ((gen_expr showF cg1 e vars).push "    drop")
/-- The `if let Some(..)` wrappers around `gen_stmt` in the `For` arm. -/
def gen_stmt_opt (showF : F → String) (cg : CodeGen) (o : Option (Stmt F))
    (vars : List String) : Except CompilerError CodeGen :=
  match o with
  | some s => gen_stmt showF cg s vars
  | none => .ok cg
/-- The statement loop of `gen_function` / `Block`. -/
def gen_stmts (showF : F → String) (cg : CodeGen) (stmts : List (Stmt F))
    (vars : List String) : Except CompilerError CodeGen :=
  match stmts with
  | [] => .ok cg
  | s :: rest =>
      (gen_stmt showF cg s vars).bind fun cg1 =>
        gen_stmts showF cg1 rest vars
end

/-- `gen_stmt_with_result` of `codegen.rs`. -/

def gen_stmt_with_result (showF : F → String) (cg : CodeGen) (s : Stmt F)
    (vars : List String) : Except CompilerError CodeGen :=
  match s with
  | .mk (.exprS e) line =>
      let cg1 := emit_line_comment cg line
      .ok ((gen_expr showF cg1 e vars).push "    local.set $_result")
  | _ => gen_stmt showF cg s vars

/-- The statement loop of `gen_start`. -/

def gen_stmts_with_result (showF : F → String) (cg : CodeGen) (stmts : List (Stmt F))
    (vars : List String) : Except CompilerError CodeGen :=
  match stmts with
  | [] => .ok cg
  | s :: rest =>
      (gen_stmt_with_result showF cg s vars).bind fun cg1 =>
        gen_stmts_with_result showF cg1 rest vars

/-- The parameter-declaration strings of `gen_function`
(`zip` stops at the shorter list, as in Rust). -/

def param_decls : List String → List Ty → List String
  | p :: ps, t :: ts =>
      ("(param $" ++ p ++ " " ++ type_to_wasm t ++ ")") :: param_decls ps ts
  | _, _ => []

/-- Insert the zipped parameter types into `variable_types`. -/

def insert_param_types (cg : CodeGen) : List String → List Ty → CodeGen
  | p :: ps, t :: ts =>
      insert_param_types { cg with variable_types := (p, t) :: cg.variable_types } ps ts
  | _, _ => cg

/-- The local-declaration strings of `gen_function` / `gen_start`. -/

def local_decl_strings (cg : CodeGen) (locals : List String) : List String :=
  locals.map fun l =>
    "(local $" ++ l ++ " " ++ type_to_wasm ((cg.variable_types.lookup l).getD .i32) ++ ")"

/-- Push a list of indented declaration lines. -/

def push_all (cg : CodeGen) : List String → CodeGen
  | [] => cg
  | d :: rest => push_all (cg.push ("    " ++ d)) rest

/-- `gen_function` of `codegen.rs`. -/

def gen_function (showF : F → String) (cg : CodeGen) (func : Function F) :
    Except CompilerError CodeGen :=
  let cg1 := { cg with variable_types := [] }
  let cg2 := collect_variable_types cg1 func.body
  let default_param_types := List.replicate func.params.length Ty.i32
  let param_types := func.param_types.getD default_param_types
  let return_type := func.return_type.getD .i32
  let cg3 := insert_param_types cg2 func.params param_types
  let locals := collect_locals func.body func.params
  let params := param_decls func.params param_types
  let local_decls := local_decl_strings cg3 locals
  let fname := func.name
  let cg4 := cg3.push ("  (func $" ++ fname ++ " (export \"" ++ fname ++ "\") " ++
    String.intercalate " " params ++ " (result " ++ type_to_wasm return_type ++
    ") ;; line " ++ toString func.line)
  let cg5 := push_all cg4 local_decls
  let result_type := if return_type = .f32 then "f32" else "i32"
  let cg6 := cg5.push ("    (local $_result " ++ result_type ++ ")")
  let all_vars := func.params ++ locals
  (gen_stmts showF cg6 func.body all_vars).bind fun cg7 =>
    let cg8 := if return_type = .f32 then cg7.push "    f32.const 0.0"
               else cg7.push "    i32.const 0"
    .ok (cg8.push "  )")

/-- `infer_start_return_type` of `codegen.rs`. -/

def infer_start_return_type (cg : CodeGen) (stmts : List (Stmt F)) : Ty :=
  match stmts.getLast? with
  | some (.mk (.exprS e) _) => infer_expr_type_quick cg e
  | _ => .i32

/-- `gen_start` of `codegen.rs`. -/

def gen_start (showF : F → String) (cg : CodeGen) (stmts : List (Stmt F)) :
    Except CompilerError CodeGen :=
  let cg1 := { cg with variable_types := [] }
  let cg2 := collect_variable_types cg1 stmts
  let locals := collect_locals stmts []
  let local_decls := local_decl_strings cg2 locals
  let start_return_type := infer_start_return_type cg2 stmts
  let cg3 := cg2.push ("  (func $_start (export \"_start\") (result " ++
    type_to_wasm start_return_type ++ ")")
  let cg4 := push_all cg3 local_decls
  let cg5 := cg4.push ("    (local $_result " ++ type_to_wasm start_return_type ++ ")")
  (gen_stmts_with_result showF cg5 stmts locals).bind fun cg6 =>
    .ok ((cg6.push "    local.get $_result").push "  )")

/-- The return-type-map registration loop of `generate`. -/

def register_return_types (cg : CodeGen) : List (Function F) → CodeGen
  | [] => cg
  | f :: rest =>
      register_return_types
        { cg with function_return_types :=
            (f.name, f.return_type.getD .i32) :: cg.function_return_types } rest

/-- The per-function loop of `generate`. -/

def gen_functions (showF : F → String) (cg : CodeGen) :
    List (Function F) → Except CompilerError CodeGen
  | [] => .ok cg
  | f :: rest =>
      (gen_function showF cg f).bind fun cg1 =>
        gen_functions showF cg1 rest

/-- `generate` of `codegen.rs`. -/

def generate (showF : F → String) (p : Program F) : Except CompilerError String :=
  let cg1 := CodeGen.new.push "(module"
  let cg2 := register_return_types cg1 p.functions
  (gen_functions showF cg2 p.functions).bind fun cg3 =>
    (gen_start showF cg3 p.top_level).bind fun cg4 =>
      .ok (String.intercalate "\n" (cg4.push ")").output)

/-! ## lexer.rs

The lexer's `(input, pos, line)` state is modelled as the remaining
character list plus the current line: `peek` past the end yields `'\x00'`
exactly as `unwrap_or('\0')` does, and an embedded NUL character behaves
like end of input in both.  Character classes (`is_whitespace`,
`is_alphabetic`, `is_alphanumeric`) are Unicode-aware in Rust; the
embedding uses Lean's ASCII classifiers, which agree on all ASCII input
(`is_ascii_digit` is ASCII in both).  `next_token`'s self-recursion after a
skipped comment is bounded by a fuel parameter; `none` means the fuel ran
out, never a lexer outcome. -/

/-- `Token` of `lexer.rs`. -/

inductive Token (F : Type) where
  | number : Int → Token F
  | numberF32 : F → Token F
  | identifier : String → Token F
  | letT | constT | functionT | ifT | elseT | whileT | forT | returnT | breakT | continueT
  | plus | minus | star | slash | percent | bang | eqEq | bangEq | ltT | gtT | ltEq | gtEq | eqT
  | andAnd | orOr
  | lparen | rparen | lbrace | rbrace | comma | semicolon
  | eof

/-- Whether a token is `Eof` (the `tok == Token::Eof` test in
`tokenize`). -/

def Token.is_eof {F : Type} : Token F → Bool
  | .eof => true
  | _ => false

/-- The lexer state: remaining input and current line. -/

structure LexState where
  rest : List Char
  line : Nat

/-- `peek`: the current character, `'\0'` at end of input. -/

def LexState.peek (s : LexState) : Char := s.rest.headD '\x00'

/-- `self.input.get(self.pos + 1)`: one character of lookahead. -/

def LexState.peek2 (s : LexState) : Option Char := (s.rest.drop 1).head?

/-- `advance`: consume one character, bumping the line on `'\n'`. -/

def LexState.advance (s : LexState) : LexState :=
  ⟨s.rest.tail, if s.peek = '\n' then s.line + 1 else s.line⟩

/-- Models Rust `char::is_alphabetic`.  Restricted to ASCII letters (the
inputs relevant to the claims are ASCII; Rust's version is
Unicode-aware). -/

def isAlphabetic (c : Char) : Bool := c.isAlpha

/-- `skip_whitespace`. -/

def skip_whitespace : LexState → LexState
  | ⟨[], l⟩ => ⟨[], l⟩
  | ⟨c :: cs, l⟩ =>
      if c.isWhitespace then skip_whitespace ⟨cs, if c = '\n' then l + 1 else l⟩
      else ⟨c :: cs, l⟩
termination_by s => s.rest.length
decreasing_by simp_wf

/-- `skip_line_comment`: consume until a newline or end of input (the
newline itself is left in place). -/

def skip_line_comment : LexState → LexState
  | ⟨[], l⟩ => ⟨[], l⟩
  | ⟨c :: cs, l⟩ =>
      if c ≠ '\n' ∧ c ≠ '\x00' then
        skip_line_comment ⟨cs, if c = '\n' then l + 1 else l⟩
      else ⟨c :: cs, l⟩
termination_by s => s.rest.length
decreasing_by simp_wf

/-- The scan loop of `skip_block_comment` (after the opening `/*` has been
consumed). -/

def skip_block_aux : LexState → Except CompilerError LexState
  | ⟨[], l⟩ => .error (.lexer l "Unterminated block comment")
  | ⟨c :: cs, l⟩ =>
      if c = '\x00' then .error (.lexer l "Unterminated block comment")
      else if c = '*' ∧ cs.head? = some '/' then .ok ⟨cs.tail, l⟩
      else skip_block_aux ⟨cs, if c = '\n' then l + 1 else l⟩
termination_by s => s.rest.length
decreasing_by simp_wf

/-- `skip_block_comment`: consume `/*`, then scan for `*/`. -/

def skip_block_comment (s : LexState) : Except CompilerError LexState :=
  skip_block_aux s.advance.advance

/-- The digit-reading loops of `read_number` (`while
self.peek().is_ascii_digit()`), accumulating onto `num_str`. -/

def read_digits : LexState → List Char → List Char × LexState
  | ⟨[], l⟩, acc => (acc, ⟨[], l⟩)
  | ⟨c :: cs, l⟩, acc =>
      if c.isDigit then read_digits ⟨cs, l⟩ (acc ++ [c])
      else (acc, ⟨c :: cs, l⟩)
termination_by s _ => s.rest.length
decreasing_by simp_wf

/-- Accumulator worker for `digitsVal`. -/

def digitsValAux (acc : Nat) : List Char → Nat
  | [] => acc
  | c :: cs => digitsValAux (acc * 10 + (c.toNat - 48)) cs

/-- The value of a decimal digit string. -/

def digitsVal : List Char → Nat
  | [] => 0
  | c :: cs => digitsValAux (c.toNat - 48) cs

/-- Models `str::parse::<i32>` on the integer-path `num_str`, which is
always a (non-empty) plain digit string: it succeeds iff the value fits in
`i32`. -/

def parse_i32_digits (ds : List Char) : Option Int :=
  if ds ≠ [] ∧ ds.all (·.isDigit) ∧ digitsVal ds ≤ 2147483647 then
    some (digitsVal ds : Int)
  else none

/-- The dot test of `read_number`: should the `.` after the integer part be
consumed as part of a float literal?  (`Some(ch) if digit → yes;
`e`/`E` → yes; `_` or alphabetic → NO — leaves the dot so `3.foo` errors
later; anything else, or end of input → yes.) -/

def is_float_dot : Option Char → Bool
  | some ch =>
      if ch.isDigit then true
      else if ch = 'e' ∨ ch = 'E' then true
      else if ch = '_' ∨ isAlphabetic ch then false
      else true
  | none => true

/-- `read_number` of `lexer.rs`, parameterised by the `f32` parser `pf`
(models `str::parse::<f32>`). -/

def read_number (pf : List Char → Option F) (s0 : LexState) :
    Except CompilerError ((Token F × Nat) × LexState) :=
  let start_line := s0.line
  let (ids, s1) := read_digits s0 []
  -- "Check for decimal point"
  let dotStep : List Char × Bool × LexState :=
    if s1.peek = '.' then
      if is_float_dot s1.peek2 then
        let (fds, s2) := read_digits s1.advance []
        (ids ++ '.' :: fds, true, s2)
      else (ids, false, s1)
    else (ids, false, s1)
  let num1 := dotStep.1
  let isF1 := dotStep.2.1
  let s2 := dotStep.2.2
  -- "Check for exponent"
  if s2.peek = 'e' ∨ s2.peek = 'E' then
    let ec := s2.peek
    let s3 := s2.advance
    let signStep : List Char × LexState :=
      if s3.peek = '+' ∨ s3.peek = '-' then ([s3.peek], s3.advance) else ([], s3)
    let s4 := signStep.2
    if ¬ s4.peek.isDigit then
      .error (.lexer start_line "Invalid number: expected digit after exponent")
    else
      let (eds, s5) := read_digits s4 []
      let num := num1 ++ ec :: (signStep.1 ++ eds)
      match pf num with
      | some f => .ok ((.numberF32 f, start_line), s5)
      | none =>
          .error (.lexer start_line ("Invalid float literal: " ++ String.mk num))
  else
    if isF1 then
      match pf num1 with
      | some f => .ok ((.numberF32 f, start_line), s2)
      | none =>
          .error (.lexer start_line ("Invalid float literal: " ++ String.mk num1))
    else
      match parse_i32_digits num1 with
      | some n => .ok ((.number n, start_line), s2)
      | none =>
          .error (.lexer start_line ("Invalid integer literal: " ++ String.mk num1))

/-- `read_identifier` of `lexer.rs` (ASCII restriction of
`is_alphanumeric`). -/

def read_identifier : LexState → List Char → List Char × LexState
  | ⟨[], l⟩, acc => (acc, ⟨[], l⟩)
  | ⟨c :: cs, l⟩, acc =>
      if c.isAlphanum ∨ c = '_' then read_identifier ⟨cs, l⟩ (acc ++ [c])
      else (acc, ⟨c :: cs, l⟩)
termination_by s _ => s.rest.length
decreasing_by simp_wf

/-- The keyword table of `next_token`. -/

def keyword_or_ident {F : Type} (ident : String) : Token F :=
  if ident = "let" then .letT
  else if ident = "const" then .constT
  else if ident = "function" then .functionT
  else if ident = "if" then .ifT
  else if ident = "else" then .elseT
  else if ident = "while" then .whileT
  else if ident = "for" then .forT
  else if ident = "return" then .returnT
  else if ident = "break" then .breakT
  else if ident = "continue" then .continueT
  else .identifier ident

/-- The single- or multi-character operator dispatch at the end of
`next_token` (after `advance`): `c` is the consumed character, `s1` the
state after it. -/

def operator_token {F : Type} (c : Char) (line : Nat) (s1 : LexState) :
    Except CompilerError ((Token F × Nat) × LexState) :=
  if c = '+' then .ok ((.plus, line), s1)
  else if c = '-' then .ok ((.minus, line), s1)
  else if c = '*' then .ok ((.star, line), s1)
  else if c = '/' then .ok ((.slash, line), s1)
  else if c = '%' then .ok ((.percent, line), s1)
  else if c = '(' then .ok ((.lparen, line), s1)
  else if c = ')' then .ok ((.rparen, line), s1)
  else if c = '{' then .ok ((.lbrace, line), s1)
  else if c = '}' then .ok ((.rbrace, line), s1)
  else if c = ',' then .ok ((.comma, line), s1)
  else if c = ';' then .ok ((.semicolon, line), s1)
  else if c = '!' then
    (if s1.peek = '=' then .ok ((.bangEq, line), s1.advance)
     else .ok ((.bang, line), s1))
  else if c = '=' then
    (if s1.peek = '=' then .ok ((.eqEq, line), s1.advance)
     else .ok ((.eqT, line), s1))
  else if c = '<' then
    (if s1.peek = '=' then .ok ((.ltEq, line), s1.advance)
     else .ok ((.ltT, line), s1))
  else if c = '>' then
    (if s1.peek = '=' then .ok ((.gtEq, line), s1.advance)
     else .ok ((.gtT, line), s1))
  else if c = '&' then
    (if s1.peek = '&' then .ok ((.andAnd, line), s1.advance)
     else .error (.lexer line ("Unexpected character: " ++ toString c)))
  else if c = '|' then
    (if s1.peek = '|' then .ok ((.orOr, line), s1.advance)
     else .error (.lexer line ("Unexpected character: " ++ toString c)))
  else .error (.lexer line ("Unexpected character: " ++ toString c))

/-- The lookahead test for `.5`-style floats (`map_or(false, is_ascii_digit)`). -/

def peek2_is_digit : Option Char → Bool
  | some ch => ch.isDigit
  | none => false

/-- `next_token` of `lexer.rs`.  The fuel bounds the self-recursion that
skips comments; `none` means the fuel ran out (which no real run does). -/

def next_token (pf : List Char → Option F) :
    Nat → LexState → Option (Except CompilerError ((Token F × Nat) × LexState))
  | 0, _ => none
  | fuel + 1, s0 =>
      let s := skip_whitespace s0
      -- "Single-line comment"
      if s.peek = '/' ∧ s.peek2 = some '/' then
        next_token pf fuel (skip_line_comment s)
      -- "Multi-line comment"
      else if s.peek = '/' ∧ s.peek2 = some '*' then
        match skip_block_comment s with
        | .error e => some (.error e)
        | .ok s1 => next_token pf fuel s1
      else
        let line := s.line
        let c := s.peek
        if c = '\x00' then some (.ok ((.eof, line), s))
        -- "Handle .5 style floats"
        else if c = '.' ∧ peek2_is_digit s.peek2 then
          some (read_number pf s)
        else if c.isDigit then
          some (read_number pf s)
        else if isAlphabetic c ∨ c = '_' then
          let (ident, s1) := read_identifier s []
          some (.ok ((keyword_or_ident (String.mk ident), line), s1))
        else
          some (operator_token c line s.advance)

/-- The `tokenize` loop of `lexer.rs`, accumulating `(token, line)` pairs
until `Eof`.  The fuel bounds the loop; `none` means it ran out. -/

def tokenize (pf : List Char → Option F) :
    Nat → LexState → List (Token F × Nat) →
    Option (Except CompilerError (List (Token F × Nat)))
  | 0, _, _ => none
  | fuel + 1, s, acc =>
      match next_token pf (fuel + 1) s with
      | none => none
      | some (.error e) => some (.error e)
      | some (.ok ((tok, ln), s1)) =>
          if tok.is_eof then some (.ok (acc ++ [(tok, ln)]))
          else tokenize pf fuel s1 (acc ++ [(tok, ln)])

/-- `Lexer::new(input).tokenize()`: start at line 1 with an empty
accumulator. -/

def tokenize_all (pf : List Char → Option F) (fuel : Nat) (input : List Char) :
    Option (Except CompilerError (List (Token F × Nat))) :=
  tokenize pf fuel ⟨input, 1⟩ []

/-- The program `function f(){ if (1) return 1; else return 1.0; }`: the
then-branch returns type `I`, the (unreachable) else-branch type `F`. -/

def progIfReturns : Program Unit :=
  ⟨[⟨"f", [], none, none,
     [.mk (.ifS (.number 1) (.mk (.ret (.number 1)) 1)
           (some (.mk (.ret (.numberF32 ())) 1))) 1], 1⟩], []⟩

/-- The program `function f(x){} f(1); f(1.0);` for claim C4's counterexample
companion and C6's end-to-end conjunct. -/

def progFirstCallWins : Program Unit :=
  ⟨[⟨"f", ["a"], none, none, [], 1⟩],
   [.mk (.exprS (.call "f" [.number 1])) 1,
    .mk (.exprS (.call "f" [.numberF32 ()])) 2]⟩

/-- The program `function g(){ h(1.0); } function h(x){ return x; }`: `h` is
called only from inside `g`'s body, never from top-level (directly or
transitively). -/

def progInnerCall : Program Unit :=
  ⟨[⟨"g", [], none, none, [.mk (.exprS (.call "h" [.numberF32 ()])) 1], 1⟩,
    ⟨"h", ["x"], none, none, [.mk (.ret (.identifier "x")) 2], 2⟩], []⟩

/-! ### Simple unfolding lemmas for the optimizer -/

@[simp] theorem fold_expr_number (ops : FOps F) (n : Int) :
    fold_expr ops (.number n) = some (.number n) := by
  simp [fold_expr]

@[simp] theorem fold_expr_numberF32 (ops : FOps F) (f : F) :
    fold_expr ops (.numberF32 f) = some (.numberF32 f) := by
  simp [fold_expr]

@[simp] theorem fold_expr_identifier (ops : FOps F) (s : String) :
    fold_expr ops (.identifier s) = some (.identifier s) := by
  simp [fold_expr]

mutual
/-- Every statement produced by `optimize_stmt` satisfies the post-return
shape predicate. -/
theorem optimize_stmt_ret_ok (ops : FOps F) (s s' : Stmt F)
    (h : optimize_stmt ops s = some s') : stmt_ret_ok s' = true := by
  match s with
  | .mk (.letS n e) line =>
      simp only [optimize_stmt] at h
      obtain ⟨e', he, h2⟩ := Option.bind_eq_some.mp h
      rw [Option.some_inj] at h2; subst h2
      simp [stmt_ret_ok, kind_ret_ok]
  | .mk (.constS n e) line =>
      simp only [optimize_stmt] at h
      obtain ⟨e', he, h2⟩ := Option.bind_eq_some.mp h
      rw [Option.some_inj] at h2; subst h2
      simp [stmt_ret_ok, kind_ret_ok]
  | .mk (.assign n e) line =>
      simp only [optimize_stmt] at h
      obtain ⟨e', he, h2⟩ := Option.bind_eq_some.mp h
      rw [Option.some_inj] at h2; subst h2
      simp [stmt_ret_ok, kind_ret_ok]
  | .mk (.ifS cond thenB elseB) line =>
      simp only [optimize_stmt] at h
      obtain ⟨cond', hc, h2⟩ := Option.bind_eq_some.mp h
      by_cases hf : lit_is_false ops cond' = true
      · rw [if_pos hf] at h2
        exact optimize_if_false_ret_ok ops line elseB s' h2
      · rw [if_neg hf] at h2
        by_cases ht : lit_is_true ops cond' = true
        · rw [if_pos ht] at h2
          exact optimize_stmt_ret_ok ops thenB s' h2
        · rw [if_neg ht] at h2
          obtain ⟨t, hth, h3⟩ := Option.bind_eq_some.mp h2
          obtain ⟨e', heb, h4⟩ := Option.bind_eq_some.mp h3
          rw [Option.some_inj] at h4; subst h4
          have h5 := optimize_stmt_ret_ok ops thenB t hth
          have h6 := optimize_stmt_opt_ret_ok ops elseB e' heb
          simp [stmt_ret_ok, kind_ret_ok, h5, h6]
  | .mk (.whileS cond body) line =>
      simp only [optimize_stmt] at h
      obtain ⟨cond', hc, h2⟩ := Option.bind_eq_some.mp h
      by_cases hf : lit_is_false ops cond' = true
      · rw [if_pos hf] at h2
        rw [Option.some_inj] at h2; subst h2
        simp [stmt_ret_ok, kind_ret_ok, stmts_ret_ok]
      · rw [if_neg hf] at h2
        obtain ⟨b, hb, h3⟩ := Option.bind_eq_some.mp h2
        rw [Option.some_inj] at h3; subst h3
        have h5 := optimize_stmt_ret_ok ops body b hb
        simp [stmt_ret_ok, kind_ret_ok, h5]
  | .mk (.forS init cond incr body) line =>
      simp only [optimize_stmt] at h
      obtain ⟨init', hinit, h2⟩ := Option.bind_eq_some.mp h
      obtain ⟨cond', hcond, h3⟩ := Option.bind_eq_some.mp h2
      obtain ⟨incr', hincr, h4⟩ := Option.bind_eq_some.mp h3
      by_cases hdead : opt_cond_is_false ops cond' = true
      · rw [if_pos hdead] at h4
        have hio := optimize_stmt_opt_ret_ok ops init init' hinit
        cases init' with
        | some i =>
            rw [Option.some_inj] at h4; subst h4
            simp only [opt_stmt_ret_ok] at hio
            simp [stmt_ret_ok, kind_ret_ok, stmts_ret_ok, hio]
        | none =>
            rw [Option.some_inj] at h4; subst h4
            simp [stmt_ret_ok, kind_ret_ok, stmts_ret_ok]
      · rw [if_neg hdead] at h4
        obtain ⟨b, hb, h5⟩ := Option.bind_eq_some.mp h4
        rw [Option.some_inj] at h5; subst h5
        have hbody := optimize_stmt_ret_ok ops body b hb
        have hio := optimize_stmt_opt_ret_ok ops init init' hinit
        have hco := optimize_stmt_opt_ret_ok ops incr incr' hincr
        simp [stmt_ret_ok, kind_ret_ok, hbody, hio, hco]
  | .mk (.block stmts) line =>
      simp only [optimize_stmt] at h
      obtain ⟨stmts', hs, h2⟩ := Option.bind_eq_some.mp h
      rw [Option.some_inj] at h2; subst h2
      have h5 := optimize_stmts_ret_ok ops stmts stmts' hs
      simp [stmt_ret_ok, kind_ret_ok, h5]
  | .mk (.ret e) line =>
      simp only [optimize_stmt] at h
      obtain ⟨e', he, h2⟩ := Option.bind_eq_some.mp h
      rw [Option.some_inj] at h2; subst h2
      simp [stmt_ret_ok, kind_ret_ok]
  | .mk .breakS line =>
      simp only [optimize_stmt, Option.some_inj] at h
      subst h; simp [stmt_ret_ok, kind_ret_ok]
  | .mk .continueS line =>
      simp only [optimize_stmt, Option.some_inj] at h
      subst h; simp [stmt_ret_ok, kind_ret_ok]
  | .mk (.exprS e) line =>
      simp only [optimize_stmt] at h
      obtain ⟨e', he, h2⟩ := Option.bind_eq_some.mp h
      rw [Option.some_inj] at h2; subst h2
      simp [stmt_ret_ok, kind_ret_ok]
/-- Post-return shape for the `if (false)` collapse helper. -/
theorem optimize_if_false_ret_ok (ops : FOps F) (line : Nat) (o : Option (Stmt F))
    (s' : Stmt F) (h : optimize_if_false ops line o = some s') :
    stmt_ret_ok s' = true := by
  match o with
  | some eb =>
      simp only [optimize_if_false] at h
      exact optimize_stmt_ret_ok ops eb s' h
  | none =>
      simp only [optimize_if_false, Option.some_inj] at h
      subst h; simp [stmt_ret_ok, kind_ret_ok, stmts_ret_ok]
/-- Post-return shape for optimization of an optional sub-statement. -/
theorem optimize_stmt_opt_ret_ok (ops : FOps F) (o o' : Option (Stmt F))
    (h : optimize_stmt_opt ops o = some o') : opt_stmt_ret_ok o' = true := by
  match o with
  | some s =>
      simp only [optimize_stmt_opt] at h
      obtain ⟨s1, hs1, h2⟩ := Option.map_eq_some'.mp h
      subst h2
      simp only [opt_stmt_ret_ok]
      exact optimize_stmt_ret_ok ops s s1 hs1
  | none =>
      simp only [optimize_stmt_opt, Option.some_inj] at h
      subst h; rfl
/-- Every statement sequence produced by `optimize_stmts` satisfies the
post-return shape predicate: in particular no statement follows its first
`Return`. -/
theorem optimize_stmts_ret_ok (ops : FOps F) (l l' : List (Stmt F))
    (h : optimize_stmts ops l = some l') : stmts_ret_ok l' = true := by
  match l with
  | [] =>
      simp only [optimize_stmts, Option.some_inj] at h
      subst h; rfl
  | s :: rest =>
      simp only [optimize_stmts] at h
      obtain ⟨s', hs, h2⟩ := Option.bind_eq_some.mp h
      have hso := optimize_stmt_ret_ok ops s s' hs
      by_cases hr : is_return s' = true
      · rw [if_pos hr] at h2
        rw [Option.some_inj] at h2; subst h2
        simp [stmts_ret_ok, hso, hr]
      · rw [if_neg hr] at h2
        obtain ⟨rest', hrest, h3⟩ := Option.bind_eq_some.mp h2
        rw [Option.some_inj] at h3; subst h3
        have hro := optimize_stmts_ret_ok ops rest rest' hrest
        simp [stmts_ret_ok, hso, hr, hro]
end

/-- Every function body produced by `optimize_functions` satisfies the
post-return shape predicate. -/

theorem optimize_functions_ret_ok (ops : FOps F) (fs fs' : List (Function F))
    (h : optimize_functions ops fs = some fs') :
    fs'.all (fun f => stmts_ret_ok f.body) = true := by
  induction fs generalizing fs' with
  | nil =>
      simp only [optimize_functions, Option.some_inj] at h
      subst h; rfl
  | cons f rest ih =>
      simp only [optimize_functions] at h
      obtain ⟨b, hb, h2⟩ := Option.bind_eq_some.mp h
      obtain ⟨rest', hrest, h3⟩ := Option.bind_eq_some.mp h2
      rw [Option.some_inj] at h3; subst h3
      have h4 := optimize_stmts_ret_ok ops f.body b hb
      have h5 := ih rest' hrest
      simp [List.all_cons, h4, h5]

/-! ### Idempotence machinery (for claim C9) -/

/-- One-step unfolding of `fold_expr` at a binary node. -/

theorem fold_expr_binary_eq (ops : FOps F) (l : Expr F) (op : BinOp) (r : Expr F) :
    fold_expr ops (.binary l op r) =
      (fold_expr ops l).bind fun l' =>
        (fold_expr ops r).bind fun r' =>
          fold_binary ops l' op r' := by
  simp only [fold_expr]

/-- One-step unfolding of `fold_expr` at a unary node. -/

theorem fold_expr_unary_eq (ops : FOps F) (op : UnaryOp) (e : Expr F) :
    fold_expr ops (.unary op e) =
      (fold_expr ops e).bind fun e' => fold_unary ops op e' := by
  simp only [fold_expr]

/-- One-step unfolding of `fold_expr` at a call node. -/

theorem fold_expr_call_eq (ops : FOps F) (name : String) (args : List (Expr F)) :
    fold_expr ops (.call name args) =
      (fold_expr_list ops args).bind fun args' => some (.call name args') := by
  simp only [fold_expr]

/-- One-step unfolding of `fold_expr` at a logical node. -/

theorem fold_expr_logical_eq (ops : FOps F) (l : Expr F) (op : LogicalOp) (r : Expr F) :
    fold_expr ops (.logical l op r) =
      (fold_expr ops l).bind fun l' =>
        (fold_expr ops r).bind fun r' =>
          some (.logical l' op r') := by
  simp only [fold_expr]

/-- Re-folding the result of `fold_binary` (for already-folded operands)
changes nothing. -/

theorem fold_binary_refold (ops : FOps F) (l r e' : Expr F) (op : BinOp)
    (hl : fold_expr ops l = some l) (hr : fold_expr ops r = some r)
    (h : fold_binary ops l op r = some e') : fold_expr ops e' = some e' := by
  cases l with
  | number a =>
      cases r with
      | number b =>
          cases op
          case div =>
            simp only [fold_binary] at h
            obtain ⟨q, hq, he⟩ := Option.map_eq_some'.mp h
            subst he; simp
          case mod =>
            simp only [fold_binary] at h
            obtain ⟨q, hq, he⟩ := Option.map_eq_some'.mp h
            subst he; simp
          all_goals
            (simp only [fold_binary, Option.some_inj] at h
             subst h; simp)
      | numberF32 b =>
          simp only [fold_binary, Option.some_inj] at h
          subst h; rw [fold_expr_binary_eq, hl, hr]; simp [fold_binary]
      | identifier s =>
          simp only [fold_binary, Option.some_inj] at h
          subst h; rw [fold_expr_binary_eq, hl, hr]; simp [fold_binary]
      | binary x o y =>
          simp only [fold_binary, Option.some_inj] at h
          subst h; rw [fold_expr_binary_eq, hl, hr]; simp [fold_binary]
      | unary o x =>
          simp only [fold_binary, Option.some_inj] at h
          subst h; rw [fold_expr_binary_eq, hl, hr]; simp [fold_binary]
      | call n as =>
          simp only [fold_binary, Option.some_inj] at h
          subst h; rw [fold_expr_binary_eq, hl, hr]; simp [fold_binary]
      | logical x o y =>
          simp only [fold_binary, Option.some_inj] at h
          subst h; rw [fold_expr_binary_eq, hl, hr]; simp [fold_binary]
  | numberF32 a =>
      cases r with
      | numberF32 b =>
          cases op
          case mod =>
            simp only [fold_binary, Option.some_inj] at h
            subst h
            rw [fold_expr_binary_eq]
            simp [fold_binary]
          all_goals
            (simp only [fold_binary, Option.some_inj] at h
             subst h; simp)
      | number b =>
          simp only [fold_binary, Option.some_inj] at h
          subst h; rw [fold_expr_binary_eq, hl, hr]; simp [fold_binary]
      | identifier s =>
          simp only [fold_binary, Option.some_inj] at h
          subst h; rw [fold_expr_binary_eq, hl, hr]; simp [fold_binary]
      | binary x o y =>
          simp only [fold_binary, Option.some_inj] at h
          subst h; rw [fold_expr_binary_eq, hl, hr]; simp [fold_binary]
      | unary o x =>
          simp only [fold_binary, Option.some_inj] at h
          subst h; rw [fold_expr_binary_eq, hl, hr]; simp [fold_binary]
      | call n as =>
          simp only [fold_binary, Option.some_inj] at h
          subst h; rw [fold_expr_binary_eq, hl, hr]; simp [fold_binary]
      | logical x o y =>
          simp only [fold_binary, Option.some_inj] at h
          subst h; rw [fold_expr_binary_eq, hl, hr]; simp [fold_binary]
  | identifier s =>
      simp only [fold_binary, Option.some_inj] at h
      subst h; rw [fold_expr_binary_eq, hl, hr]; simp [fold_binary]
  | binary x o y =>
      simp only [fold_binary, Option.some_inj] at h
      subst h; rw [fold_expr_binary_eq, hl, hr]; simp [fold_binary]
  | unary o x =>
      simp only [fold_binary, Option.some_inj] at h
      subst h; rw [fold_expr_binary_eq, hl, hr]; simp [fold_binary]
  | call n as =>
      simp only [fold_binary, Option.some_inj] at h
      subst h; rw [fold_expr_binary_eq, hl, hr]; simp [fold_binary]
  | logical x o y =>
      simp only [fold_binary, Option.some_inj] at h
      subst h; rw [fold_expr_binary_eq, hl, hr]; simp [fold_binary]

/-- Re-folding the result of `fold_unary` (for an already-folded operand)
changes nothing. -/

theorem fold_unary_refold (ops : FOps F) (e0 e' : Expr F) (op : UnaryOp)
    (he : fold_expr ops e0 = some e0)
    (h : fold_unary ops op e0 = some e') : fold_expr ops e' = some e' := by
  cases e0 with
  | number n =>
      cases op <;>
        (simp only [fold_unary, Option.some_inj] at h
         subst h; simp)
  | numberF32 f =>
      cases op <;>
        (simp only [fold_unary, Option.some_inj] at h
         subst h; simp)
  | identifier s =>
      simp only [fold_unary, Option.some_inj] at h
      subst h; rw [fold_expr_unary_eq, he]; simp [fold_unary]
  | binary x o y =>
      simp only [fold_unary, Option.some_inj] at h
      subst h; rw [fold_expr_unary_eq, he]; simp [fold_unary]
  | unary o x =>
      simp only [fold_unary, Option.some_inj] at h
      subst h; rw [fold_expr_unary_eq, he]; simp [fold_unary]
  | call n as =>
      simp only [fold_unary, Option.some_inj] at h
      subst h; rw [fold_expr_unary_eq, he]; simp [fold_unary]
  | logical x o y =>
      simp only [fold_unary, Option.some_inj] at h
      subst h; rw [fold_expr_unary_eq, he]; simp [fold_unary]

mutual
/-- `fold_expr` is idempotent: re-folding a successful result is the
identity. -/
theorem fold_expr_idem (ops : FOps F) (e e' : Expr F)
    (h : fold_expr ops e = some e') : fold_expr ops e' = some e' := by
  match e with
  | .binary l op r =>
      simp only [fold_expr] at h
      obtain ⟨l', hl, h2⟩ := Option.bind_eq_some.mp h
      obtain ⟨r', hr, h3⟩ := Option.bind_eq_some.mp h2
      have hl' := fold_expr_idem ops l l' hl
      have hr' := fold_expr_idem ops r r' hr
      exact fold_binary_refold ops l' r' e' op hl' hr' h3
  | .unary op e0 =>
      simp only [fold_expr] at h
      obtain ⟨e1, he1, h2⟩ := Option.bind_eq_some.mp h
      have he1' := fold_expr_idem ops e0 e1 he1
      exact fold_unary_refold ops e1 e' op he1' h2
  | .call name args =>
      simp only [fold_expr] at h
      obtain ⟨args', ha, h2⟩ := Option.bind_eq_some.mp h
      rw [Option.some_inj] at h2; subst h2
      have ha' := fold_expr_list_idem ops args args' ha
      simp [fold_expr, ha']
  | .logical l op r =>
      simp only [fold_expr] at h
      obtain ⟨l', hl, h2⟩ := Option.bind_eq_some.mp h
      obtain ⟨r', hr, h3⟩ := Option.bind_eq_some.mp h2
      rw [Option.some_inj] at h3; subst h3
      have hl' := fold_expr_idem ops l l' hl
      have hr' := fold_expr_idem ops r r' hr
      simp [fold_expr, hl', hr']
  | .number n =>
      simp only [fold_expr, Option.some_inj] at h; subst h; simp
  | .numberF32 f =>
      simp only [fold_expr, Option.some_inj] at h; subst h; simp
  | .identifier s =>
      simp only [fold_expr, Option.some_inj] at h; subst h; simp
/-- `fold_expr_list` is idempotent. -/
theorem fold_expr_list_idem (ops : FOps F) (l l' : List (Expr F))
    (h : fold_expr_list ops l = some l') : fold_expr_list ops l' = some l' := by
  match l with
  | [] =>
      simp only [fold_expr_list, Option.some_inj] at h
      subst h; simp [fold_expr_list]
  | e :: rest =>
      simp only [fold_expr_list] at h
      obtain ⟨e', he, h2⟩ := Option.bind_eq_some.mp h
      obtain ⟨rest', hrest, h3⟩ := Option.bind_eq_some.mp h2
      rw [Option.some_inj] at h3; subst h3
      have he' := fold_expr_idem ops e e' he
      have hrest' := fold_expr_list_idem ops rest rest' hrest
      simp [fold_expr_list, he', hrest']
end

/-- `fold_expr_opt` is idempotent. -/

theorem fold_expr_opt_idem (ops : FOps F) (o o' : Option (Expr F))
    (h : fold_expr_opt ops o = some o') : fold_expr_opt ops o' = some o' := by
  match o with
  | some c =>
      simp only [fold_expr_opt] at h
      obtain ⟨c', hc, h2⟩ := Option.map_eq_some'.mp h
      subst h2
      simp [fold_expr_opt, fold_expr_idem ops c c' hc]
  | none =>
      simp only [fold_expr_opt, Option.some_inj] at h
      subst h; rfl

mutual
/-- `optimize_stmt` is idempotent: re-optimizing a successful result is the
identity. -/
theorem optimize_stmt_idem (ops : FOps F) (s s' : Stmt F)
    (h : optimize_stmt ops s = some s') : optimize_stmt ops s' = some s' := by
  match s with
  | .mk (.letS n e) line =>
      simp only [optimize_stmt] at h
      obtain ⟨e', he, h2⟩ := Option.bind_eq_some.mp h
      rw [Option.some_inj] at h2; subst h2
      simp [optimize_stmt, fold_expr_idem ops e e' he]
  | .mk (.constS n e) line =>
      simp only [optimize_stmt] at h
      obtain ⟨e', he, h2⟩ := Option.bind_eq_some.mp h
      rw [Option.some_inj] at h2; subst h2
      simp [optimize_stmt, fold_expr_idem ops e e' he]
  | .mk (.assign n e) line =>
      simp only [optimize_stmt] at h
      obtain ⟨e', he, h2⟩ := Option.bind_eq_some.mp h
      rw [Option.some_inj] at h2; subst h2
      simp [optimize_stmt, fold_expr_idem ops e e' he]
  | .mk (.ifS cond thenB elseB) line =>
      simp only [optimize_stmt] at h
      obtain ⟨cond', hc, h2⟩ := Option.bind_eq_some.mp h
      by_cases hf : lit_is_false ops cond' = true
      · rw [if_pos hf] at h2
        exact optimize_if_false_idem ops line elseB s' h2
      · rw [if_neg hf] at h2
        by_cases ht : lit_is_true ops cond' = true
        · rw [if_pos ht] at h2
          exact optimize_stmt_idem ops thenB s' h2
        · rw [if_neg ht] at h2
          obtain ⟨t, hth, h3⟩ := Option.bind_eq_some.mp h2
          obtain ⟨e', heb, h4⟩ := Option.bind_eq_some.mp h3
          rw [Option.some_inj] at h4; subst h4
          have hc' := fold_expr_idem ops cond cond' hc
          have ht' := optimize_stmt_idem ops thenB t hth
          have he' := optimize_stmt_opt_idem ops elseB e' heb
          simp [optimize_stmt, hc', ht', he', hf, ht]
  | .mk (.whileS cond body) line =>
      simp only [optimize_stmt] at h
      obtain ⟨cond', hc, h2⟩ := Option.bind_eq_some.mp h
      by_cases hf : lit_is_false ops cond' = true
      · rw [if_pos hf] at h2
        rw [Option.some_inj] at h2; subst h2
        simp [optimize_stmt, optimize_stmts]
      · rw [if_neg hf] at h2
        obtain ⟨b, hb, h3⟩ := Option.bind_eq_some.mp h2
        rw [Option.some_inj] at h3; subst h3
        have hc' := fold_expr_idem ops cond cond' hc
        have hb' := optimize_stmt_idem ops body b hb
        simp [optimize_stmt, hc', hb', hf]
  | .mk (.forS init cond incr body) line =>
      simp only [optimize_stmt] at h
      obtain ⟨init', hinit, h2⟩ := Option.bind_eq_some.mp h
      obtain ⟨cond', hcond, h3⟩ := Option.bind_eq_some.mp h2
      obtain ⟨incr', hincr, h4⟩ := Option.bind_eq_some.mp h3
      by_cases hdead : opt_cond_is_false ops cond' = true
      · rw [if_pos hdead] at h4
        cases init' with
        | some i =>
            rw [Option.some_inj] at h4; subst h4
            have hi := optimize_stmt_opt_idem ops init (some i) hinit
            simp only [optimize_stmt_opt] at hi
            obtain ⟨i1, hi1, hi2⟩ := Option.map_eq_some'.mp hi
            rw [Option.some_inj] at hi2; subst hi2
            cases hret : is_return i1 with
            | true => simp [optimize_stmt, optimize_stmts, hi1, hret]
            | false => simp [optimize_stmt, optimize_stmts, hi1, hret]
        | none =>
            rw [Option.some_inj] at h4; subst h4
            simp [optimize_stmt, optimize_stmts]
      · rw [if_neg hdead] at h4
        obtain ⟨b, hb, h5⟩ := Option.bind_eq_some.mp h4
        rw [Option.some_inj] at h5; subst h5
        have hi' := optimize_stmt_opt_idem ops init init' hinit
        have hc' := fold_expr_opt_idem ops cond cond' hcond
        have hn' := optimize_stmt_opt_idem ops incr incr' hincr
        have hb' := optimize_stmt_idem ops body b hb
        simp [optimize_stmt, hi', hc', hn', hb', hdead]
  | .mk (.block stmts) line =>
      simp only [optimize_stmt] at h
      obtain ⟨stmts', hs, h2⟩ := Option.bind_eq_some.mp h
      rw [Option.some_inj] at h2; subst h2
      simp [optimize_stmt, optimize_stmts_idem ops stmts stmts' hs]
  | .mk (.ret e) line =>
      simp only [optimize_stmt] at h
      obtain ⟨e', he, h2⟩ := Option.bind_eq_some.mp h
      rw [Option.some_inj] at h2; subst h2
      simp [optimize_stmt, fold_expr_idem ops e e' he]
  | .mk .breakS line =>
      simp only [optimize_stmt, Option.some_inj] at h
      subst h; simp [optimize_stmt]
  | .mk .continueS line =>
      simp only [optimize_stmt, Option.some_inj] at h
      subst h; simp [optimize_stmt]
  | .mk (.exprS e) line =>
      simp only [optimize_stmt] at h
      obtain ⟨e', he, h2⟩ := Option.bind_eq_some.mp h
      rw [Option.some_inj] at h2; subst h2
      simp [optimize_stmt, fold_expr_idem ops e e' he]
/-- Idempotence through the `if (false)` collapse helper: its result is a
fixed point of `optimize_stmt`. -/
theorem optimize_if_false_idem (ops : FOps F) (line : Nat) (o : Option (Stmt F))
    (s' : Stmt F) (h : optimize_if_false ops line o = some s') :
    optimize_stmt ops s' = some s' := by
  match o with
  | some eb =>
      simp only [optimize_if_false] at h
      exact optimize_stmt_idem ops eb s' h
  | none =>
      simp only [optimize_if_false, Option.some_inj] at h
      subst h
      simp [optimize_stmt, optimize_stmts]
/-- `optimize_stmt_opt` is idempotent. -/
theorem optimize_stmt_opt_idem (ops : FOps F) (o o' : Option (Stmt F))
    (h : optimize_stmt_opt ops o = some o') : optimize_stmt_opt ops o' = some o' := by
  match o with
  | some s =>
      simp only [optimize_stmt_opt] at h
      obtain ⟨s1, hs1, h2⟩ := Option.map_eq_some'.mp h
      subst h2
      simp [optimize_stmt_opt, optimize_stmt_idem ops s s1 hs1]
  | none =>
      simp only [optimize_stmt_opt, Option.some_inj] at h
      subst h; rfl
/-- `optimize_stmts` is idempotent. -/
theorem optimize_stmts_idem (ops : FOps F) (l l' : List (Stmt F))
    (h : optimize_stmts ops l = some l') : optimize_stmts ops l' = some l' := by
  match l with
  | [] =>
      simp only [optimize_stmts, Option.some_inj] at h
      subst h; simp [optimize_stmts]
  | s :: rest =>
      simp only [optimize_stmts] at h
      obtain ⟨s', hs, h2⟩ := Option.bind_eq_some.mp h
      have hs' := optimize_stmt_idem ops s s' hs
      by_cases hr : is_return s' = true
      · rw [if_pos hr] at h2
        rw [Option.some_inj] at h2; subst h2
        simp [optimize_stmts, hs', hr]
      · rw [if_neg hr] at h2
        obtain ⟨rest', hrest, h3⟩ := Option.bind_eq_some.mp h2
        rw [Option.some_inj] at h3; subst h3
        have hrest' := optimize_stmts_idem ops rest rest' hrest
        simp [optimize_stmts, hs', hr, hrest']
end

/-- `optimize_functions` is idempotent. -/

theorem optimize_functions_idem (ops : FOps F) (fs fs' : List (Function F))
    (h : optimize_functions ops fs = some fs') :
    optimize_functions ops fs' = some fs' := by
  induction fs generalizing fs' with
  | nil =>
      simp only [optimize_functions, Option.some_inj] at h
      subst h; simp [optimize_functions]
  | cons f rest ih =>
      obtain ⟨nm, ps, pt, rt, bd, ln⟩ := f
      simp only [optimize_functions] at h
      obtain ⟨b, hb, h2⟩ := Option.bind_eq_some.mp h
      obtain ⟨rest', hrest, h3⟩ := Option.bind_eq_some.mp h2
      rw [Option.some_inj] at h3; subst h3
      have hb' := optimize_stmts_idem ops bd b hb
      have hrest' := ih rest' hrest
      simp [optimize_functions, hb', hrest']

/-! ## Claim theorems about the optimizer -/

/-- C1.  The spec forbids implementation-language panics/aborts in the lexer,
parser, semantic and optimizer phases for any well-formed UTF-8 input, and in
particular requires constant folding of two integer literals never to abort.
The code violates this: `fold_expr` evaluates `a / b` with Rust `i32`
division, which panics on a zero right operand in every build profile.  At
the well-formed source `1/0;` (which passes lexing, parsing and semantic
analysis), the optimizer phase aborts — modelled as `none` from
`optimize_program`. -/

theorem fold_div_by_zero_panics :
    optimize_program unitOps
      ⟨[], [.mk (.exprS (.binary (.number 1) .div (.number 0))) 1]⟩ = none := by
  simp [optimize_program, optimize_functions, optimize_stmts, optimize_stmt,
        fold_expr, fold_binary, rustDivI32]

/-- C7 counterexample.  The claim says folding a binary expression over two
integer literals always returns an integer literal with the two's-complement
wraparound value of the operation, including for division.  At
`i32::MIN / -1` the wraparound value is `i32::MIN`, but the code panics
(models as `none`) instead of returning any literal. -/

theorem fold_min_div_neg_one_aborts :
    fold_expr unitOps
      (.binary (.number (-2147483648)) .div (.number (-1))) = none := by
  simp [fold_expr, fold_binary, rustDivI32]

/-- C7 (amended).  Constant folding of a binary expression over two integer
literals: add/sub/mul fold to the signed-32-bit (two's-complement,
wraparound) result; the six relational operators fold to `1`/`0` according
to the comparison's truth; div/mod fold to the Rust truncated quotient /
remainder when the right operand is non-zero and the operands are not
`(i32::MIN, -1)` — and in those two remaining cases folding panics (no
literal is returned). -/

theorem fold_binary_int_semantics (ops : FOps F) (a b : Int) :
    (fold_expr ops (.binary (.number a) .add (.number b)) =
       some (.number (wrap32 (a + b)))) ∧
    (fold_expr ops (.binary (.number a) .sub (.number b)) =
       some (.number (wrap32 (a - b)))) ∧
    (fold_expr ops (.binary (.number a) .mul (.number b)) =
       some (.number (wrap32 (a * b)))) ∧
    (fold_expr ops (.binary (.number a) .eq (.number b)) =
       some (.number (if a = b then 1 else 0))) ∧
    (fold_expr ops (.binary (.number a) .ne (.number b)) =
       some (.number (if a ≠ b then 1 else 0))) ∧
    (fold_expr ops (.binary (.number a) .lt (.number b)) =
       some (.number (if a < b then 1 else 0))) ∧
    (fold_expr ops (.binary (.number a) .gt (.number b)) =
       some (.number (if a > b then 1 else 0))) ∧
    (fold_expr ops (.binary (.number a) .le (.number b)) =
       some (.number (if a ≤ b then 1 else 0))) ∧
    (fold_expr ops (.binary (.number a) .ge (.number b)) =
       some (.number (if a ≥ b then 1 else 0))) ∧
    (b ≠ 0 → ¬(a = -2147483648 ∧ b = -1) →
       fold_expr ops (.binary (.number a) .div (.number b)) =
         some (.number (Int.tdiv a b)) ∧
       fold_expr ops (.binary (.number a) .mod (.number b)) =
         some (.number (Int.tmod a b))) ∧
    (b = 0 ∨ (a = -2147483648 ∧ b = -1) →
       fold_expr ops (.binary (.number a) .div (.number b)) = none ∧
       fold_expr ops (.binary (.number a) .mod (.number b)) = none) := by
  refine ⟨?_, ?_, ?_, ?_, ?_, ?_, ?_, ?_, ?_, ?_, ?_⟩
  · simp [fold_expr, fold_binary]
  · simp [fold_expr, fold_binary]
  · simp [fold_expr, fold_binary]
  · simp [fold_expr, fold_binary]
  · simp [fold_expr, fold_binary]
  · simp [fold_expr, fold_binary]
  · simp [fold_expr, fold_binary]
  · simp [fold_expr, fold_binary]
  · simp [fold_expr, fold_binary]
  · intro hb hmin
    constructor
    · simp [fold_expr, fold_binary, rustDivI32, hb, hmin]
    · simp [fold_expr, fold_binary, rustModI32, hb, hmin]
  · intro hcase
    rcases hcase with hb | hmin
    · subst hb
      constructor
      · simp [fold_expr, fold_binary, rustDivI32]
      · simp [fold_expr, fold_binary, rustModI32]
    · obtain ⟨ha, hb⟩ := hmin
      subst ha; subst hb
      constructor
      · simp [fold_expr, fold_binary, rustDivI32]
      · simp [fold_expr, fold_binary, rustModI32]

/-- Witness for C7 (amended) at `a = -7`, `b = 2`: truncated division and
remainder. -/

theorem fold_binary_int_semantics_witness :
    fold_expr unitOps (.binary (.number (-7)) .div (.number 2)) =
      some (.number (-3)) ∧
    fold_expr unitOps (.binary (.number (-7)) .mod (.number 2)) =
      some (.number (-1)) := by
  have h := fold_binary_int_semantics (F := Unit) unitOps (-7) 2
  obtain ⟨-, -, -, -, -, -, -, -, -, hdm, -⟩ := h
  obtain ⟨hd, hm⟩ := hdm (by decide) (by decide)
  refine ⟨?_, ?_⟩
  · rw [hd]; norm_num [show Int.tdiv (-7) 2 = -3 by decide]
  · rw [hm]; norm_num [show Int.tmod (-7) 2 = -1 by decide]

/-- C8.  Post-return dead-code removal: whenever the optimizer completes, in
every statement sequence of the resulting program (each function body, the
top-level sequence, and every nested block sequence) no statement follows
the first `return` statement of that sequence. -/

theorem optimize_program_post_return (ops : FOps F) (p p' : Program F)
    (h : optimize_program ops p = some p') : program_ret_ok p' = true := by
  simp only [optimize_program] at h
  obtain ⟨fs, hfs, h2⟩ := Option.bind_eq_some.mp h
  obtain ⟨ts, hts, h3⟩ := Option.bind_eq_some.mp h2
  rw [Option.some_inj] at h3; subst h3
  have h4 := optimize_functions_ret_ok ops p.functions fs hfs
  have h5 := optimize_stmts_ret_ok ops p.top_level ts hts
  simp [program_ret_ok, h4, h5]

/-- Witness for C8: the theorem applied to `progPostRet`, whose optimization
is evaluated concretely. -/

theorem optimize_program_post_return_witness :
    ∃ p', optimize_program unitOps progPostRet = some p' ∧
      program_ret_ok p' = true := by
  have h : optimize_program unitOps progPostRet =
      some ⟨[⟨"f", [], none, none, [.mk (.ret (.number 1)) 1], 1⟩],
            [.mk (.exprS (.number 5)) 3]⟩ := by
    simp [progPostRet, optimize_program, optimize_functions, optimize_stmts,
          optimize_stmt, fold_expr, fold_binary, is_return, wrap32]
  exact ⟨_, h, optimize_program_post_return unitOps progPostRet _ h⟩

/-- C9.  The optimizer is idempotent: whenever `optimize_program` completes
on a program, running it again on the result changes nothing. -/

theorem optimize_program_idem (ops : FOps F) (p p' : Program F)
    (h : optimize_program ops p = some p') :
    optimize_program ops p' = some p' := by
  simp only [optimize_program] at h
  obtain ⟨fs, hfs, h2⟩ := Option.bind_eq_some.mp h
  obtain ⟨ts, hts, h3⟩ := Option.bind_eq_some.mp h2
  rw [Option.some_inj] at h3; subst h3
  have h4 := optimize_functions_idem ops p.functions fs hfs
  have h5 := optimize_stmts_idem ops p.top_level ts hts
  simp [optimize_program, h4, h5]

/-- Witness for C9: the theorem applied to `progIdem`, whose optimization is
evaluated concretely. -/

theorem optimize_program_idem_witness :
    optimize_program unitOps ⟨[], [.mk (.exprS (.number 5)) 1]⟩ =
      some ⟨[], [.mk (.exprS (.number 5)) 1]⟩ := by
  have h : optimize_program unitOps progIdem =
      some ⟨[], [.mk (.exprS (.number 5)) 1]⟩ := by
    simp [progIdem, optimize_program, optimize_functions, optimize_stmts,
          optimize_stmt, fold_expr, fold_binary, is_return, wrap32]
  exact optimize_program_idem unitOps progIdem _ h

/-! ### Basic lemmas about the analyzer state -/

/-- Decompose a successful `Except.bind`. -/

theorem except_bind_ok {ε α β : Type _} (x : Except ε α) (f : α → Except ε β) (b : β) :
    x.bind f = .ok b ↔ ∃ a, x = .ok a ∧ f a = .ok b := by
  cases x <;> simp [Except.bind]

theorem funs_mono_refl (st : SemState) : funs_mono st st := by
  intro g; exact ⟨id, id⟩

theorem funs_mono_of_lookup_eq {st st' : SemState}
    (h : ∀ g, st'.lookup_fun g = st.lookup_fun g) : funs_mono st st' := by
  intro g
  constructor
  · intro hp; rw [h g]; exact hp
  · intro hr; unfold retSome at hr ⊢; rw [h g]; exact hr

theorem funs_mono_trans {s1 s2 s3 : SemState}
    (h12 : funs_mono s1 s2) (h23 : funs_mono s2 s3) : funs_mono s1 s3 := by
  intro g
  exact ⟨fun hp => (h23 g).1 ((h12 g).1 hp), fun hr => (h23 g).2 ((h12 g).2 hr)⟩

/-- Lookup after `update_first`: the first matching entry is mapped, other
keys are untouched. -/

theorem lookup_update_first (l : List (String × FunctionInfo)) (name g : String)
    (f : FunctionInfo → FunctionInfo) :
    (update_first name f l).lookup g =
      if g = name then (l.lookup g).map f else l.lookup g := by
  induction l with
  | nil => simp [update_first]
  | cons kv rest ih =>
      obtain ⟨k, v⟩ := kv
      by_cases hk : k = name
      · subst hk
        by_cases hg : g = k
        · subst hg; simp [update_first, List.lookup]
        · have hb : (g == k) = false := by simp [hg]
          simp [update_first, List.lookup, hb, hg]
      · by_cases hg : g = k
        · subst hg
          have hb : (g == g) = true := by simp
          have hgn : ¬ g = name := hk
          simp [update_first, List.lookup, hk, hb, hgn]
        · have hb : (g == k) = false := by simp [hg]
          simp [update_first, List.lookup, hk, hb, ih]

/-- `update_fun` keyed lookup. -/

theorem lookup_fun_update_fun (st : SemState) (name g : String)
    (f : FunctionInfo → FunctionInfo) :
    (st.update_fun name f).lookup_fun g =
      if g = name then (st.lookup_fun g).map f else st.lookup_fun g := by
  simp [SemState.update_fun, SemState.lookup_fun, lookup_update_first]

/-- Setting `param_types` is a monotone step. -/

theorem funs_mono_update_param (st : SemState) (name : String) (ats : List Ty) :
    funs_mono st (st.update_fun name fun fi => { fi with param_types := some ats }) := by
  intro g
  constructor
  · intro hp
    rw [lookup_fun_update_fun]
    split
    · simpa using hp
    · exact hp
  · intro hr
    unfold retSome at hr ⊢
    rw [lookup_fun_update_fun]
    split
    · cases hl : st.lookup_fun g with
      | none => rw [hl] at hr; simp at hr
      | some fi => rw [hl] at hr; simpa using hr
    · exact hr

/-- Setting `return_type` to `Some` is a monotone step. -/

theorem funs_mono_update_ret (st : SemState) (name : String) (rt : Ty) :
    funs_mono st (st.update_fun name fun fi => { fi with return_type := some rt }) := by
  intro g
  constructor
  · intro hp
    rw [lookup_fun_update_fun]
    split
    · simpa using hp
    · exact hp
  · intro hr
    unfold retSome at hr ⊢
    rw [lookup_fun_update_fun]
    split
    · cases hl : st.lookup_fun g with
      | none => rw [hl] at hr; simp at hr
      | some fi => rw [hl] at hr; simp
    · exact hr

/-- Variable-scope operations do not touch the functions map. -/

theorem lookup_fun_insert_var (st : SemState) (n : String) (i : VarInfo) (g : String) :
    (st.insert_var n i).lookup_fun g = st.lookup_fun g := by
  unfold SemState.insert_var
  cases st.vars <;> rfl

theorem lookup_fun_enter_scope (st : SemState) (g : String) :
    st.enter_scope.lookup_fun g = st.lookup_fun g := rfl

theorem lookup_fun_exit_scope (st : SemState) (g : String) :
    st.exit_scope.lookup_fun g = st.lookup_fun g := rfl

theorem lookup_fun_set_depth (st : SemState) (d : Nat) (g : String) :
    ({ st with loop_depth := d } : SemState).lookup_fun g = st.lookup_fun g := rfl

/-- `insert_params` does not touch the functions map. -/

theorem lookup_fun_insert_params (st : SemState) (ps : List String) (ts : List Ty)
    (g : String) : (insert_params st ps ts).lookup_fun g = st.lookup_fun g := by
  induction ps generalizing st ts with
  | nil => simp [insert_params]
  | cons p prest ih =>
      cases ts with
      | nil => simp [insert_params]
      | cons t trest => rw [insert_params, ih, lookup_fun_insert_var]

mutual
/-- Expression inference evolves the functions map monotonically, and leaves
the entry of any uncalled function untouched. -/
theorem infer_expr_type_funs (st : SemState) (e : Expr F) (line : Nat)
    (t : Ty) (st' : SemState) (h : infer_expr_type st e line = .ok (t, st')) :
    funs_mono st st' ∧
    ∀ f, expr_no_call f e = true → st'.lookup_fun f = st.lookup_fun f := by
  match e with
  | .number n =>
      simp only [infer_expr_type, Except.ok.injEq, Prod.mk.injEq] at h
      obtain ⟨-, hst⟩ := h; subst hst
      exact ⟨funs_mono_refl st, fun f _ => rfl⟩
  | .numberF32 f0 =>
      simp only [infer_expr_type, Except.ok.injEq, Prod.mk.injEq] at h
      obtain ⟨-, hst⟩ := h; subst hst
      exact ⟨funs_mono_refl st, fun f _ => rfl⟩
  | .identifier name =>
      simp only [infer_expr_type] at h
      cases hv : st.get_variable_type name with
      | some t0 =>
          rw [hv] at h
          simp only [Except.ok.injEq, Prod.mk.injEq] at h
          obtain ⟨-, hst⟩ := h; subst hst
          exact ⟨funs_mono_refl st, fun f _ => rfl⟩
      | none =>
          rw [hv] at h
          by_cases hf : (st.lookup_fun name).isSome = true
          · rw [if_pos hf] at h; simp at h
          · rw [if_neg hf] at h; simp at h
  | .binary l op r =>
      simp only [infer_expr_type] at h
      rw [except_bind_ok] at h
      obtain ⟨⟨lt, st1⟩, hl, h2⟩ := h
      rw [except_bind_ok] at h2
      obtain ⟨⟨rt, st2⟩, hr, h3⟩ := h2
      have ihl := infer_expr_type_funs st l line lt st1 hl
      have ihr := infer_expr_type_funs st1 r line rt st2 hr
      have hst : st' = st2 := by
        repeat' split at h3
        all_goals simp_all
      subst hst
      refine ⟨funs_mono_trans ihl.1 ihr.1, ?_⟩
      intro f hf
      simp only [expr_no_call, Bool.and_eq_true] at hf
      rw [ihr.2 f hf.2, ihl.2 f hf.1]
  | .unary op operand =>
      simp only [infer_expr_type] at h
      rw [except_bind_ok] at h
      obtain ⟨⟨t0, st1⟩, h1, h2⟩ := h
      have ih := infer_expr_type_funs st operand line t0 st1 h1
      have hst : st' = st1 := by
        cases op <;> simp_all
      subst hst
      exact ⟨ih.1, fun f hf => ih.2 f (by simpa [expr_no_call] using hf)⟩
  | .call name args =>
      simp only [infer_expr_type] at h
      rw [except_bind_ok] at h
      obtain ⟨⟨ats, st1⟩, hargs, h2⟩ := h
      have iha := infer_args_funs st args line ats st1 hargs
      cases hlf : st1.lookup_fun name with
      | none => rw [hlf] at h2; simp at h2
      | some fi =>
          rw [hlf] at h2
          dsimp only at h2
          cases hpt : fi.param_types with
          | none =>
              rw [hpt] at h2
              dsimp only at h2
              simp only [Except.ok.injEq, Prod.mk.injEq] at h2
              obtain ⟨-, hst⟩ := h2
              subst hst
              refine ⟨funs_mono_trans iha.1 (funs_mono_update_param st1 name ats), ?_⟩
              intro f hf
              simp only [expr_no_call, Bool.and_eq_true, decide_eq_true_eq] at hf
              rw [lookup_fun_update_fun, if_neg (Ne.symm hf.1)]
              exact iha.2 f hf.2
          | some expected =>
              rw [hpt] at h2
              dsimp only at h2
              have hst : st' = st1 := by
                repeat' split at h2
                all_goals simp_all
              subst hst
              refine ⟨iha.1, ?_⟩
              intro f hf
              simp only [expr_no_call, Bool.and_eq_true, decide_eq_true_eq] at hf
              exact iha.2 f hf.2
  | .logical l op r =>
      simp only [infer_expr_type] at h
      rw [except_bind_ok] at h
      obtain ⟨⟨lt, st1⟩, hl, h2⟩ := h
      rw [except_bind_ok] at h2
      obtain ⟨⟨rt, st2⟩, hr, h3⟩ := h2
      have ihl := infer_expr_type_funs st l line lt st1 hl
      have ihr := infer_expr_type_funs st1 r line rt st2 hr
      have hst : st' = st2 := by
        repeat' split at h3
        all_goals simp_all
      subst hst
      refine ⟨funs_mono_trans ihl.1 ihr.1, ?_⟩
      intro f hf
      simp only [expr_no_call, Bool.and_eq_true] at hf
      rw [ihr.2 f hf.2, ihl.2 f hf.1]
/-- Argument inference evolves the functions map monotonically, and leaves
the entry of any uncalled function untouched. -/
theorem infer_args_funs (st : SemState) (args : List (Expr F)) (line : Nat)
    (ts : List Ty) (st' : SemState) (h : infer_args st args line = .ok (ts, st')) :
    funs_mono st st' ∧
    ∀ f, exprs_no_call f args = true → st'.lookup_fun f = st.lookup_fun f := by
  match args with
  | [] =>
      simp only [infer_args, Except.ok.injEq, Prod.mk.injEq] at h
      obtain ⟨-, hst⟩ := h; subst hst
      exact ⟨funs_mono_refl st, fun f _ => rfl⟩
  | a :: rest =>
      simp only [infer_args] at h
      rw [except_bind_ok] at h
      obtain ⟨⟨t0, st1⟩, h1, h2⟩ := h
      rw [except_bind_ok] at h2
      obtain ⟨⟨ts1, st2⟩, h3, h4⟩ := h2
      simp only [Except.ok.injEq, Prod.mk.injEq] at h4
      obtain ⟨-, hst⟩ := h4; subst hst
      have ih1 := infer_expr_type_funs st a line t0 st1 h1
      have ih2 := infer_args_funs st1 rest line ts1 st2 h3
      refine ⟨funs_mono_trans ih1.1 ih2.1, ?_⟩
      intro f hf
      simp only [exprs_no_call, Bool.and_eq_true] at hf
      rw [ih2.2 f hf.2, ih1.2 f hf.1]
end

mutual
/-- Statement analysis evolves the functions map monotonically, and leaves
the entry of any uncalled function untouched. -/
theorem analyze_stmt_funs (st : SemState) (s : Stmt F) (st' : SemState)
    (h : analyze_stmt st s = .ok st') :
    funs_mono st st' ∧
    ∀ f, stmt_no_call f s = true → st'.lookup_fun f = st.lookup_fun f := by
  match s with
  | .mk (.letS name e) line =>
      simp only [analyze_stmt] at h
      rw [except_bind_ok] at h
      obtain ⟨⟨t0, st1⟩, h1, h2⟩ := h
      simp only [Except.ok.injEq] at h2
      subst h2
      have ih := infer_expr_type_funs st e line t0 st1 h1
      refine ⟨funs_mono_trans ih.1
        (funs_mono_of_lookup_eq fun g => lookup_fun_insert_var st1 name _ g), ?_⟩
      intro f hf
      rw [lookup_fun_insert_var]
      exact ih.2 f (by simpa [stmt_no_call] using hf)
  | .mk (.constS name e) line =>
      simp only [analyze_stmt] at h
      rw [except_bind_ok] at h
      obtain ⟨⟨t0, st1⟩, h1, h2⟩ := h
      simp only [Except.ok.injEq] at h2
      subst h2
      have ih := infer_expr_type_funs st e line t0 st1 h1
      refine ⟨funs_mono_trans ih.1
        (funs_mono_of_lookup_eq fun g => lookup_fun_insert_var st1 name _ g), ?_⟩
      intro f hf
      rw [lookup_fun_insert_var]
      exact ih.2 f (by simpa [stmt_no_call] using hf)
  | .mk (.assign name e) line =>
      simp only [analyze_stmt] at h
      split at h
      · simp at h
      · split at h
        · simp at h
        · rw [except_bind_ok] at h
          obtain ⟨⟨et, st1⟩, h1, h2⟩ := h
          have ih := infer_expr_type_funs st e line et st1 h1
          have hst : st' = st1 := by
            split at h2
            · simp at h2
            · simp_all
          subst hst
          exact ⟨ih.1, fun f hf => ih.2 f (by simpa [stmt_no_call] using hf)⟩
  | .mk (.ifS cond thenB elseB) line =>
      cases elseB with
      | some eb =>
          simp only [analyze_stmt] at h
          rw [except_bind_ok] at h
          obtain ⟨⟨ct, st1⟩, hc, h2⟩ := h
          rw [except_bind_ok] at h2
          obtain ⟨st2, hthen, h3⟩ := h2
          have ihc := infer_expr_type_funs st cond line ct st1 hc
          have iht := analyze_stmt_funs st1 thenB st2 hthen
          have ihe := analyze_stmt_funs st2 eb st' h3
          refine ⟨funs_mono_trans ihc.1 (funs_mono_trans iht.1 ihe.1), ?_⟩
          intro f hf
          simp only [stmt_no_call, opt_stmt_no_call, Bool.and_eq_true] at hf
          rw [ihe.2 f hf.2, iht.2 f hf.1.2, ihc.2 f hf.1.1]
      | none =>
          simp only [analyze_stmt] at h
          rw [except_bind_ok] at h
          obtain ⟨⟨ct, st1⟩, hc, h2⟩ := h
          rw [except_bind_ok] at h2
          obtain ⟨st2, hthen, h3⟩ := h2
          simp only [Except.ok.injEq] at h3
          subst h3
          have ihc := infer_expr_type_funs st cond line ct st1 hc
          have iht := analyze_stmt_funs st1 thenB st2 hthen
          refine ⟨funs_mono_trans ihc.1 iht.1, ?_⟩
          intro f hf
          simp only [stmt_no_call, opt_stmt_no_call, Bool.and_eq_true] at hf
          rw [iht.2 f hf.1.2, ihc.2 f hf.1.1]
  | .mk (.whileS cond body) line =>
      simp only [analyze_stmt] at h
      rw [except_bind_ok] at h
      obtain ⟨⟨ct, st1⟩, hc, h2⟩ := h
      rw [except_bind_ok] at h2
      obtain ⟨st2, hbody, h3⟩ := h2
      simp only [Except.ok.injEq] at h3
      subst h3
      have ihc := infer_expr_type_funs st cond line ct st1 hc
      have ihb := analyze_stmt_funs _ body st2 hbody
      refine ⟨funs_mono_trans ihc.1
        (funs_mono_trans (funs_mono_of_lookup_eq fun g => rfl)
          (funs_mono_trans ihb.1 (funs_mono_of_lookup_eq fun g => rfl))), ?_⟩
      intro f hf
      simp only [stmt_no_call, Bool.and_eq_true] at hf
      have h4 := ihb.2 f hf.2
      rw [lookup_fun_set_depth]
      rw [h4]
      rw [lookup_fun_set_depth]
      exact ihc.2 f hf.1
  | .mk (.forS init cond incr body) line =>
      simp only [analyze_stmt] at h
      rw [except_bind_ok] at h
      obtain ⟨st1, hinit, h2⟩ := h
      rw [except_bind_ok] at h2
      obtain ⟨st2, hcond, h3⟩ := h2
      rw [except_bind_ok] at h3
      obtain ⟨st3, hbody, h4⟩ := h3
      rw [except_bind_ok] at h4
      obtain ⟨st4, hincr, h5⟩ := h4
      simp only [Except.ok.injEq] at h5
      subst h5
      have ihi := analyze_stmt_opt_funs _ init st1 hinit
      have ihc := infer_expr_opt_funs st1 cond line st2 hcond
      have ihb := analyze_stmt_funs _ body st3 hbody
      have ihn := analyze_stmt_opt_funs st3 incr st4 hincr
      constructor
      · refine funs_mono_trans (funs_mono_of_lookup_eq fun g => rfl) ?_
        refine funs_mono_trans ihi.1 ?_
        refine funs_mono_trans ihc.1 ?_
        refine funs_mono_trans (funs_mono_of_lookup_eq fun g => rfl) ?_
        refine funs_mono_trans ihb.1 ?_
        refine funs_mono_trans ihn.1 (funs_mono_of_lookup_eq fun g => rfl)
      · intro f hf
        simp only [stmt_no_call, Bool.and_eq_true] at hf
        show (({ st4 with loop_depth := st4.loop_depth - 1 } : SemState).exit_scope).lookup_fun f
           = st.lookup_fun f
        rw [lookup_fun_exit_scope, lookup_fun_set_depth]
        rw [ihn.2 f hf.1.2, ihb.2 f hf.2, lookup_fun_set_depth,
            ihc.2 f hf.1.1.2, ihi.2 f hf.1.1.1, lookup_fun_enter_scope]
  | .mk (.block stmts) line =>
      simp only [analyze_stmt] at h
      rw [except_bind_ok] at h
      obtain ⟨st1, hs, h2⟩ := h
      simp only [Except.ok.injEq] at h2
      subst h2
      have ih := analyze_stmts_funs _ stmts st1 hs
      refine ⟨funs_mono_trans (funs_mono_of_lookup_eq fun g => rfl)
        (funs_mono_trans ih.1 (funs_mono_of_lookup_eq fun g => rfl)), ?_⟩
      intro f hf
      rw [lookup_fun_exit_scope, ih.2 f (by simpa [stmt_no_call] using hf),
          lookup_fun_enter_scope]
  | .mk (.ret e) line =>
      simp only [analyze_stmt] at h
      rw [except_bind_ok] at h
      obtain ⟨⟨t0, st1⟩, h1, h2⟩ := h
      simp only [Except.ok.injEq] at h2
      subst h2
      have ih := infer_expr_type_funs st e line t0 st1 h1
      exact ⟨ih.1, fun f hf => ih.2 f (by simpa [stmt_no_call] using hf)⟩
  | .mk .breakS line =>
      simp only [analyze_stmt] at h
      split at h
      · simp at h
      · simp only [Except.ok.injEq] at h
        subst h
        exact ⟨funs_mono_refl st, fun f _ => rfl⟩
  | .mk .continueS line =>
      simp only [analyze_stmt] at h
      split at h
      · simp at h
      · simp only [Except.ok.injEq] at h
        subst h
        exact ⟨funs_mono_refl st, fun f _ => rfl⟩
  | .mk (.exprS e) line =>
      simp only [analyze_stmt] at h
      rw [except_bind_ok] at h
      obtain ⟨⟨t0, st1⟩, h1, h2⟩ := h
      simp only [Except.ok.injEq] at h2
      subst h2
      have ih := infer_expr_type_funs st e line t0 st1 h1
      exact ⟨ih.1, fun f hf => ih.2 f (by simpa [stmt_no_call] using hf)⟩
/-- Optional-statement analysis: same preservation. -/
theorem analyze_stmt_opt_funs (st : SemState) (o : Option (Stmt F)) (st' : SemState)
    (h : analyze_stmt_opt st o = .ok st') :
    funs_mono st st' ∧
    ∀ f, opt_stmt_no_call f o = true → st'.lookup_fun f = st.lookup_fun f := by
  match o with
  | some s =>
      simp only [analyze_stmt_opt] at h
      have ih := analyze_stmt_funs st s st' h
      exact ⟨ih.1, fun f hf => ih.2 f (by simpa [opt_stmt_no_call] using hf)⟩
  | none =>
      simp only [analyze_stmt_opt, Except.ok.injEq] at h
      subst h
      exact ⟨funs_mono_refl st, fun f _ => rfl⟩
/-- Optional-condition inference: same preservation. -/
theorem infer_expr_opt_funs (st : SemState) (o : Option (Expr F)) (line : Nat)
    (st' : SemState) (h : infer_expr_opt st o line = .ok st') :
    funs_mono st st' ∧
    ∀ f, opt_expr_no_call f o = true → st'.lookup_fun f = st.lookup_fun f := by
  match o with
  | some c =>
      simp only [infer_expr_opt] at h
      rw [except_bind_ok] at h
      obtain ⟨⟨t0, st1⟩, h1, h2⟩ := h
      simp only [Except.ok.injEq] at h2
      subst h2
      have ih := infer_expr_type_funs st c line t0 st1 h1
      exact ⟨ih.1, fun f hf => ih.2 f (by simpa [opt_expr_no_call] using hf)⟩
  | none =>
      simp only [infer_expr_opt, Except.ok.injEq] at h
      subst h
      exact ⟨funs_mono_refl st, fun f _ => rfl⟩
/-- Statement-sequence analysis: same preservation. -/
theorem analyze_stmts_funs (st : SemState) (stmts : List (Stmt F)) (st' : SemState)
    (h : analyze_stmts st stmts = .ok st') :
    funs_mono st st' ∧
    ∀ f, stmts_no_call f stmts = true → st'.lookup_fun f = st.lookup_fun f := by
  match stmts with
  | [] =>
      simp only [analyze_stmts, Except.ok.injEq] at h
      subst h
      exact ⟨funs_mono_refl st, fun f _ => rfl⟩
  | s :: rest =>
      simp only [analyze_stmts] at h
      rw [except_bind_ok] at h
      obtain ⟨st1, h1, h2⟩ := h
      have ih1 := analyze_stmt_funs st s st1 h1
      have ih2 := analyze_stmts_funs st1 rest st' h2
      refine ⟨funs_mono_trans ih1.1 ih2.1, ?_⟩
      intro f hf
      simp only [stmts_no_call, Bool.and_eq_true] at hf
      rw [ih2.2 f hf.2, ih1.2 f hf.1]
end

mutual
/-- Return-type inference evolves the functions map monotonically, and
leaves the entry of any uncalled function untouched. -/
theorem infer_return_loop_funs (st : SemState) (acc : Option Ty)
    (stmts : List (Stmt F)) (rt : Option Ty) (st' : SemState)
    (h : infer_return_loop st acc stmts = .ok (rt, st')) :
    funs_mono st st' ∧
    ∀ f, stmts_no_call f stmts = true → st'.lookup_fun f = st.lookup_fun f := by
  match stmts with
  | [] =>
      simp only [infer_return_loop, Except.ok.injEq, Prod.mk.injEq] at h
      obtain ⟨-, hst⟩ := h; subst hst
      exact ⟨funs_mono_refl st, fun f _ => rfl⟩
  | s :: rest =>
      simp only [infer_return_loop] at h
      rw [except_bind_ok] at h
      obtain ⟨⟨found, st1⟩, h1, h2⟩ := h
      have ih1 := infer_return_stmt_funs st s found st1 h1
      have step : ∃ acc1, infer_return_loop st1 acc1 rest = .ok (rt, st') := by
        cases found with
        | some ft =>
            cases acc with
            | some et =>
                dsimp only at h2
                split at h2
                · simp at h2
                · exact ⟨some et, h2⟩
            | none => exact ⟨some ft, h2⟩
        | none => exact ⟨acc, h2⟩
      obtain ⟨acc1, h3⟩ := step
      have ih2 := infer_return_loop_funs st1 acc1 rest rt st' h3
      refine ⟨funs_mono_trans ih1.1 ih2.1, ?_⟩
      intro f hf
      simp only [stmts_no_call, Bool.and_eq_true] at hf
      rw [ih2.2 f hf.2, ih1.2 f hf.1]
/-- Per-statement return-type discovery: same preservation. -/
theorem infer_return_stmt_funs (st : SemState) (s : Stmt F) (rt : Option Ty)
    (st' : SemState) (h : infer_return_stmt st s = .ok (rt, st')) :
    funs_mono st st' ∧
    ∀ f, stmt_no_call f s = true → st'.lookup_fun f = st.lookup_fun f := by
  match s with
  | .mk (.ret e) line =>
      simp only [infer_return_stmt] at h
      rw [except_bind_ok] at h
      obtain ⟨⟨t0, st1⟩, h1, h2⟩ := h
      simp only [Except.ok.injEq, Prod.mk.injEq] at h2
      obtain ⟨-, hst⟩ := h2; subst hst
      have ih := infer_expr_type_funs st e line t0 st1 h1
      exact ⟨ih.1, fun f hf => ih.2 f (by simpa [stmt_no_call] using hf)⟩
  | .mk (.ifS cond thenB elseB) line =>
      cases elseB with
      | some eb =>
          simp only [infer_return_stmt] at h
          rw [except_bind_ok] at h
          obtain ⟨⟨tt, st1⟩, h1, h2⟩ := h
          rw [except_bind_ok] at h2
          obtain ⟨⟨et, st2⟩, h3, h4⟩ := h2
          simp only [Except.ok.injEq, Prod.mk.injEq] at h4
          obtain ⟨-, hst⟩ := h4; subst hst
          have iht := infer_return_stmt_funs st thenB tt st1 h1
          have ihe := infer_return_stmt_funs st1 eb et st2 h3
          refine ⟨funs_mono_trans iht.1 ihe.1, ?_⟩
          intro f hf
          simp only [stmt_no_call, opt_stmt_no_call, Bool.and_eq_true] at hf
          rw [ihe.2 f hf.2, iht.2 f hf.1.2]
      | none =>
          simp only [infer_return_stmt] at h
          rw [except_bind_ok] at h
          obtain ⟨⟨tt, st1⟩, h1, h2⟩ := h
          simp only [Except.ok.injEq, Prod.mk.injEq] at h2
          obtain ⟨-, hst⟩ := h2; subst hst
          have iht := infer_return_stmt_funs st thenB tt st1 h1
          refine ⟨iht.1, ?_⟩
          intro f hf
          simp only [stmt_no_call, opt_stmt_no_call, Bool.and_eq_true] at hf
          exact iht.2 f hf.1.2
  | .mk (.whileS cond body) line =>
      simp only [infer_return_stmt] at h
      have ih := infer_return_stmt_funs st body rt st' h
      refine ⟨ih.1, ?_⟩
      intro f hf
      simp only [stmt_no_call, Bool.and_eq_true] at hf
      exact ih.2 f hf.2
  | .mk (.forS init cond incr body) line =>
      simp only [infer_return_stmt] at h
      have ih := infer_return_stmt_funs st body rt st' h
      refine ⟨ih.1, ?_⟩
      intro f hf
      simp only [stmt_no_call, Bool.and_eq_true] at hf
      exact ih.2 f hf.2
  | .mk (.block stmts) line =>
      simp only [infer_return_stmt] at h
      have ih := infer_return_loop_funs st none stmts rt st' h
      exact ⟨ih.1, fun f hf => ih.2 f (by simpa [stmt_no_call] using hf)⟩
  | .mk (.letS n e) line =>
      simp only [infer_return_stmt, Except.ok.injEq, Prod.mk.injEq] at h
      obtain ⟨-, hst⟩ := h; subst hst
      exact ⟨funs_mono_refl st, fun f _ => rfl⟩
  | .mk (.constS n e) line =>
      simp only [infer_return_stmt, Except.ok.injEq, Prod.mk.injEq] at h
      obtain ⟨-, hst⟩ := h; subst hst
      exact ⟨funs_mono_refl st, fun f _ => rfl⟩
  | .mk (.assign n e) line =>
      simp only [infer_return_stmt, Except.ok.injEq, Prod.mk.injEq] at h
      obtain ⟨-, hst⟩ := h; subst hst
      exact ⟨funs_mono_refl st, fun f _ => rfl⟩
  | .mk .breakS line =>
      simp only [infer_return_stmt, Except.ok.injEq, Prod.mk.injEq] at h
      obtain ⟨-, hst⟩ := h; subst hst
      exact ⟨funs_mono_refl st, fun f _ => rfl⟩
  | .mk .continueS line =>
      simp only [infer_return_stmt, Except.ok.injEq, Prod.mk.injEq] at h
      obtain ⟨-, hst⟩ := h; subst hst
      exact ⟨funs_mono_refl st, fun f _ => rfl⟩
  | .mk (.exprS e) line =>
      simp only [infer_return_stmt, Except.ok.injEq, Prod.mk.injEq] at h
      obtain ⟨-, hst⟩ := h; subst hst
      exact ⟨funs_mono_refl st, fun f _ => rfl⟩
end

/-- `analyze_function_with_params`: monotone on the functions map, preserves
the `param_types` view of every function not called in the body, and — when
the analyzed function is registered — establishes a `Some` return type for
it. -/

theorem analyze_function_funs (st : SemState) (func : Function F) (pts : List Ty)
    (st' : SemState) (h : analyze_function_with_params st func pts = .ok st') :
    funs_mono st st' ∧
    (∀ f, stmts_no_call f func.body = true →
       params_view st' f = params_view st f) ∧
    ((st.lookup_fun func.name).isSome = true → retSome st' func.name) := by
  simp only [analyze_function_with_params] at h
  rw [except_bind_ok] at h
  obtain ⟨st2, hstmts, h2⟩ := h
  rw [except_bind_ok] at h2
  obtain ⟨⟨rt0, st3⟩, hret, h3⟩ := h2
  simp only [Except.ok.injEq] at h3
  subst h3
  have hbase : ∀ g, (insert_params st.enter_scope func.params pts).lookup_fun g =
      st.lookup_fun g := by
    intro g; rw [lookup_fun_insert_params, lookup_fun_enter_scope]
  have ihs := analyze_stmts_funs _ func.body st2 hstmts
  simp only [infer_return_type_from_stmts] at hret
  have ihr := infer_return_loop_funs st2 none func.body rt0 st3 hret
  refine ⟨?_, ?_, ?_⟩
  · refine funs_mono_trans (funs_mono_of_lookup_eq hbase) ?_
    refine funs_mono_trans ihs.1 ?_
    refine funs_mono_trans ihr.1 ?_
    refine funs_mono_trans (funs_mono_update_ret st3 func.name (rt0.getD .i32)) ?_
    exact funs_mono_of_lookup_eq fun g => rfl
  · intro f hf
    unfold params_view
    rw [lookup_fun_exit_scope, lookup_fun_update_fun]
    have h4 : st3.lookup_fun f = st.lookup_fun f := by
      rw [ihr.2 f hf, ihs.2 f hf, hbase]
    split
    · rw [h4, Option.map_map]
      rfl
    · rw [h4]
  · intro hp
    have hp3 : (st3.lookup_fun func.name).isSome = true := by
      have hp1 : ((insert_params st.enter_scope func.params pts).lookup_fun
          func.name).isSome = true := by rw [hbase]; exact hp
      exact (ihr.1 func.name).1 ((ihs.1 func.name).1 hp1)
    unfold retSome
    rw [lookup_fun_exit_scope, lookup_fun_update_fun, if_pos rfl]
    cases hl : st3.lookup_fun func.name with
    | none => rw [hl] at hp3; simp at hp3
    | some fi => simp

/-- Pass 1: monotone, preserves the `param_types` view of uncalled
functions, and gives every registered listed function a `Some` return
type. -/

theorem analyze_pass1_funs (st : SemState) (fs : List (Function F))
    (st' : SemState) (h : analyze_pass1 st fs = .ok st') :
    funs_mono st st' ∧
    (∀ f, (fs.all fun fn => stmts_no_call f fn.body) = true →
       params_view st' f = params_view st f) ∧
    (∀ func ∈ fs, (st.lookup_fun func.name).isSome = true → retSome st' func.name) := by
  induction fs generalizing st with
  | nil =>
      simp only [analyze_pass1, Except.ok.injEq] at h
      subst h
      exact ⟨funs_mono_refl st, fun f _ => rfl, by simp⟩
  | cons f0 rest ih =>
      simp only [analyze_pass1] at h
      rw [except_bind_ok] at h
      obtain ⟨st1, h1, h2⟩ := h
      have ihf := analyze_function_funs st f0 (List.replicate f0.params.length .i32) st1 h1
      have ihr := ih st1 h2
      refine ⟨funs_mono_trans ihf.1 ihr.1, ?_, ?_⟩
      · intro f hf
        simp only [List.all_cons, Bool.and_eq_true] at hf
        rw [ihr.2.1 f hf.2, ihf.2.1 f hf.1]
      · intro func hmem hp
        rcases List.mem_cons.mp hmem with hd | htl
        · subst hd
          exact (ihr.1 func.name).2 (ihf.2.2 hp)
        · exact ihr.2.2 func htl ((ihf.1 func.name).1 hp)

/-- Pass 2: monotone, preserves the `param_types` view of uncalled
functions. -/

theorem analyze_pass2_funs (st : SemState) (fs : List (Function F))
    (st' : SemState) (h : analyze_pass2 st fs = .ok st') :
    funs_mono st st' ∧
    (∀ f, (fs.all fun fn => stmts_no_call f fn.body) = true →
       params_view st' f = params_view st f) := by
  induction fs generalizing st with
  | nil =>
      simp only [analyze_pass2, Except.ok.injEq] at h
      subst h
      exact ⟨funs_mono_refl st, fun f _ => rfl⟩
  | cons f0 rest ih =>
      simp only [analyze_pass2] at h
      cases hpt : (st.lookup_fun f0.name).bind (fun fi => fi.param_types) with
      | some pt =>
          rw [hpt] at h
          rw [except_bind_ok] at h
          obtain ⟨st1, h1, h2⟩ := h
          have ihf := analyze_function_funs st f0 pt st1 h1
          have ihr := ih st1 h2
          refine ⟨funs_mono_trans ihf.1 ihr.1, ?_⟩
          intro f hf
          simp only [List.all_cons, Bool.and_eq_true] at hf
          rw [ihr.2 f hf.2, ihf.2.1 f hf.1]
      | none =>
          rw [hpt] at h
          have ihr := ih st h
          refine ⟨ihr.1, ?_⟩
          intro f hf
          simp only [List.all_cons, Bool.and_eq_true] at hf
          exact ihr.2 f hf.2

/-- Lookup after `insert_fun`. -/

theorem lookup_fun_insert_fun (st : SemState) (n : String) (i : FunctionInfo)
    (g : String) :
    (st.insert_fun n i).lookup_fun g = if g = n then some i else st.lookup_fun g := by
  by_cases hg : g = n
  · subst hg
    simp [SemState.insert_fun, SemState.lookup_fun, List.lookup]
  · have hb : (g == n) = false := by simp [hg]
    simp [SemState.insert_fun, SemState.lookup_fun, List.lookup, hb, hg]

/-- Registration does not touch the entries of unlisted names. -/

theorem register_lookup_of_not_mem (st : SemState) (fs : List (Function F))
    (f : String) (hf : ∀ fn ∈ fs, fn.name ≠ f) :
    (register_functions st fs).lookup_fun f = st.lookup_fun f := by
  induction fs generalizing st with
  | nil => rfl
  | cons g rest ih =>
      rw [register_functions, ih _ (fun fn hm => hf fn (List.mem_cons_of_mem g hm)),
          lookup_fun_insert_fun, if_neg (fun hc => hf g (List.mem_cons_self g rest) hc.symm)]

/-- A registered name maps to the fresh `⟨none, none⟩` record. -/

theorem register_lookup_of_mem (st : SemState) (fs : List (Function F))
    (f : String) (hf : ∃ fn ∈ fs, fn.name = f) :
    (register_functions st fs).lookup_fun f = some ⟨none, none⟩ := by
  induction fs generalizing st with
  | nil => obtain ⟨fn, hm, -⟩ := hf; exact absurd hm (List.not_mem_nil fn)
  | cons g rest ih =>
      rw [register_functions]
      by_cases hrest : ∃ fn ∈ rest, fn.name = f
      · exact ih _ hrest
      · obtain ⟨fn, hm, hname⟩ := hf
        rcases List.mem_cons.mp hm with hd | htl
        · subst hd
          have hnr : ∀ fn ∈ rest, fn.name ≠ f := by
            intro fn1 hm1 hc; exact hrest ⟨fn1, hm1, hc⟩
          rw [register_lookup_of_not_mem _ rest f hnr, lookup_fun_insert_fun,
              if_pos hname.symm]
        · exact absurd ⟨fn, htl, hname⟩ hrest

/-- `write_back` output: every function whose map entry carries a `Some`
return type gets `return_type = Some`. -/

theorem write_back_ret_some (st : SemState) (fs : List (Function F))
    (h : ∀ fn ∈ fs, retSome st fn.name) :
    ∀ fn' ∈ write_back st fs, fn'.return_type.isSome = true := by
  induction fs with
  | nil => intro fn' hm; exact absurd hm (List.not_mem_nil fn')
  | cons f0 rest ih =>
      intro fn' hm
      rw [write_back] at hm
      rcases List.mem_cons.mp hm with hd | htl
      · have hr := h f0 (List.mem_cons_self f0 rest)
        unfold retSome at hr
        cases hl : st.lookup_fun f0.name with
        | none => rw [hl] at hr; simp at hr
        | some fi =>
            rw [hl] at hr
            simp only [Option.some_bind] at hr
            rw [hl] at hd
            subst hd
            exact hr
      · exact ih (fun fn hm1 => h fn (List.mem_cons_of_mem f0 hm1)) fn' htl

/-- `write_back` output: a function named `f` whose map entry has
`param_types = none` comes out with `param_types = none`. -/

theorem write_back_param_none (st : SemState) (fs : List (Function F)) (f : String)
    (hlk : ∀ fi, st.lookup_fun f = some fi → fi.param_types = none)
    (hpres : ∀ fn ∈ fs, (st.lookup_fun fn.name).isSome = true) :
    ∀ fn' ∈ write_back st fs, fn'.name = f → fn'.param_types = none := by
  induction fs with
  | nil => intro fn' hm; exact absurd hm (List.not_mem_nil fn')
  | cons f0 rest ih =>
      intro fn' hm hname
      rw [write_back] at hm
      rcases List.mem_cons.mp hm with hd | htl
      · have hp := hpres f0 (List.mem_cons_self f0 rest)
        cases hl : st.lookup_fun f0.name with
        | none => rw [hl] at hp; simp at hp
        | some fi =>
            rw [hl] at hd
            subst hd
            simp only at hname
            subst hname
            exact hlk fi hl
      · exact ih (fun fn hm1 => hpres fn (List.mem_cons_of_mem f0 hm1)) fn' htl hname

/-- C4 (amended).  Whenever semantic analysis succeeds, every `Function`
node in the resulting AST has `return_type = Some` (the first pass derives a
return type for every function; `param_types`, by contrast, is only ever set
at a call site — see the counterexample for an uncalled function). -/

theorem analyze_return_types_set (p p' : Program F) (h : analyze p = .ok p') :
    ∀ fn ∈ p'.functions, fn.return_type.isSome = true := by
  simp only [analyze] at h
  rw [except_bind_ok] at h
  obtain ⟨st2, hp1, h2⟩ := h
  rw [except_bind_ok] at h2
  obtain ⟨st3, hstmts, h3⟩ := h2
  rw [except_bind_ok] at h3
  obtain ⟨st4, hp2, h4⟩ := h3
  simp only [Except.ok.injEq] at h4
  subst h4
  have ihp1 := analyze_pass1_funs _ p.functions st2 hp1
  have ihs := analyze_stmts_funs st2 p.top_level st3 hstmts
  have ihp2 := analyze_pass2_funs st3 p.functions st4 hp2
  intro fn hm
  refine write_back_ret_some st4 p.functions ?_ fn hm
  intro fn0 hm0
  have hreg : ((register_functions SemState.new p.functions).lookup_fun
      fn0.name).isSome = true := by
    rw [register_lookup_of_mem _ _ _ ⟨fn0, hm0, rfl⟩]; rfl
  have hr2 : retSome st2 fn0.name := ihp1.2.2 fn0 hm0 hreg
  exact (ihp2.1 fn0.name).2 ((ihs.1 fn0.name).2 hr2)

/-- Witness for C4 (amended): applied to the uncalled-function program
`function f(x){}`, whose analysis is evaluated concretely. -/

theorem analyze_return_types_set_witness :
    ((⟨"f", ["x"], none, some .i32, [], 1⟩ : Function Unit)).return_type.isSome = true := by
  have heval : analyze progUncalled =
      .ok ⟨[⟨"f", ["x"], none, some .i32, [], 1⟩], []⟩ := by
    simp [progUncalled, analyze, register_functions, analyze_pass1, analyze_pass2,
        analyze_function_with_params, insert_params, analyze_stmts, analyze_stmt,
        infer_return_type_from_stmts, infer_return_loop, infer_return_stmt,
        write_back, SemState.new, SemState.enter_scope, SemState.exit_scope,
        SemState.insert_var, SemState.insert_fun, SemState.update_fun,
        SemState.lookup_fun, lookup_scopes, update_first, List.lookup,
        Except.bind]
  exact analyze_return_types_set progUncalled _ heval _ (by simp)

/-- C5 (amended).  A function to which no call expression occurs anywhere in
the program is never refined: after successful analysis its `param_types`
is still `None`.  (Conversely, a call anywhere — including inside another
function's body — fixes the callee's `param_types`; see the
counterexample.) -/

theorem analyze_uncalled_params_stay_none (p p' : Program F) (f : String)
    (hnc : program_no_call f p = true) (h : analyze p = .ok p') :
    ∀ fn ∈ p'.functions, fn.name = f → fn.param_types = none := by
  simp only [program_no_call, Bool.and_eq_true, List.all_eq_true] at hnc
  simp only [analyze] at h
  rw [except_bind_ok] at h
  obtain ⟨st2, hp1, h2⟩ := h
  rw [except_bind_ok] at h2
  obtain ⟨st3, hstmts, h3⟩ := h2
  rw [except_bind_ok] at h3
  obtain ⟨st4, hp2, h4⟩ := h3
  simp only [Except.ok.injEq] at h4
  subst h4
  have ihp1 := analyze_pass1_funs _ p.functions st2 hp1
  have ihs := analyze_stmts_funs st2 p.top_level st3 hstmts
  have ihp2 := analyze_pass2_funs st3 p.functions st4 hp2
  have hall : (p.functions.all fun fn => stmts_no_call f fn.body) = true := by
    simp only [List.all_eq_true]
    exact hnc.1
  have hview : params_view st4 f =
      params_view (register_functions SemState.new p.functions) f := by
    rw [ihp2.2 f hall]
    have h5 : st3.lookup_fun f = st2.lookup_fun f := ihs.2 f hnc.2
    unfold params_view
    rw [h5]
    exact ihp1.2.1 f hall
  intro fn hm hname
  refine write_back_param_none st4 p.functions f ?_ ?_ fn hm hname
  · intro fi hfi
    by_cases hmem : ∃ fn0 ∈ p.functions, fn0.name = f
    · have hreg := register_lookup_of_mem SemState.new p.functions f hmem
      have : params_view st4 f = some none := by
        rw [hview]; unfold params_view; rw [hreg]; rfl
      unfold params_view at this
      rw [hfi] at this
      simpa using this
    · have hnm : ∀ fn0 ∈ p.functions, fn0.name ≠ f := by
        intro fn0 hm0 hc; exact hmem ⟨fn0, hm0, hc⟩
      have hreg := register_lookup_of_not_mem SemState.new p.functions f hnm
      have : params_view st4 f = none := by
        rw [hview]; unfold params_view; rw [hreg]; rfl
      unfold params_view at this
      rw [hfi] at this
      simp at this
  · intro fn0 hm0
    have hreg : ((register_functions SemState.new p.functions).lookup_fun
        fn0.name).isSome = true := by
      rw [register_lookup_of_mem _ _ _ ⟨fn0, hm0, rfl⟩]; rfl
    exact (ihp2.1 fn0.name).1 ((ihs.1 fn0.name).1 ((ihp1.1 fn0.name).1 hreg))

/-- Witness for C5 (amended): applied to `function f(x){}` (`f` nowhere
called), whose analysis is evaluated concretely. -/

theorem analyze_uncalled_params_stay_none_witness :
    ((⟨"f", ["x"], none, some .i32, [], 1⟩ : Function Unit)).param_types = none := by
  have heval : analyze progUncalled =
      .ok ⟨[⟨"f", ["x"], none, some .i32, [], 1⟩], []⟩ := by
    simp [progUncalled, analyze, register_functions, analyze_pass1, analyze_pass2,
        analyze_function_with_params, insert_params, analyze_stmts, analyze_stmt,
        infer_return_type_from_stmts, infer_return_loop, infer_return_stmt,
        write_back, SemState.new, SemState.enter_scope, SemState.exit_scope,
        SemState.insert_var, SemState.insert_fun, SemState.update_fun,
        SemState.lookup_fun, lookup_scopes, update_first, List.lookup,
        Except.bind]
  have hnc : program_no_call "f" progUncalled = true := by
    simp [progUncalled, program_no_call, stmts_no_call]
  exact analyze_uncalled_params_stay_none progUncalled _ "f" hnc heval _ (by simp) rfl

/-! ### Totality of the code generator (for claim C10) -/

/-- Compose success-existence through `Except.bind`. -/

theorem except_bind_exists {ε α β : Type _} {x : Except ε α} {f : α → Except ε β}
    (hx : ∃ a, x = .ok a) (hf : ∀ a, ∃ b, f a = .ok b) :
    ∃ b, x.bind f = .ok b := by
  obtain ⟨a, ha⟩ := hx
  obtain ⟨b, hb⟩ := hf a
  exact ⟨b, by rw [ha]; simpa [Except.bind] using hb⟩

mutual
/-- `gen_stmt` has no error path: it succeeds on every statement. -/
theorem gen_stmt_ok (showF : F → String) (cg : CodeGen) (s : Stmt F)
    (vars : List String) : ∃ cg', gen_stmt showF cg s vars = .ok cg' := by
  match s with
  | .mk (.letS n e) line => exact ⟨_, by simp only [gen_stmt]; rfl⟩
  | .mk (.constS n e) line => exact ⟨_, by simp only [gen_stmt]; rfl⟩
  | .mk (.assign n e) line => exact ⟨_, by simp only [gen_stmt]; rfl⟩
  | .mk (.ifS cond thenB elseB) line =>
      cases elseB with
      | some eb =>
          simp only [gen_stmt]
          refine except_bind_exists (gen_stmt_ok showF _ thenB vars) ?_
          intro cg4
          refine except_bind_exists (gen_stmt_ok showF _ eb vars) ?_
          intro cg5
          exact ⟨_, rfl⟩
      | none =>
          simp only [gen_stmt]
          refine except_bind_exists (gen_stmt_ok showF _ thenB vars) ?_
          intro cg4
          exact ⟨_, rfl⟩
  | .mk (.whileS cond body) line =>
      simp only [gen_stmt]
      refine except_bind_exists (gen_stmt_ok showF _ body vars) ?_
      intro cg7
      exact ⟨_, rfl⟩
  | .mk (.forS init cond incr body) line =>
      cases cond with
      | some ce =>
          simp only [gen_stmt]
          refine except_bind_exists (gen_stmt_opt_ok showF _ init vars) ?_
          intro cg2
          refine except_bind_exists (gen_stmt_ok showF _ body vars) ?_
          intro cg7
          refine except_bind_exists (gen_stmt_opt_ok showF _ incr vars) ?_
          intro cg9
          exact ⟨_, rfl⟩
      | none =>
          simp only [gen_stmt]
          refine except_bind_exists (gen_stmt_opt_ok showF _ init vars) ?_
          intro cg2
          refine except_bind_exists (gen_stmt_ok showF _ body vars) ?_
          intro cg7
          refine except_bind_exists (gen_stmt_opt_ok showF _ incr vars) ?_
          intro cg9
          exact ⟨_, rfl⟩
  | .mk (.block stmts) line =>
      simp only [gen_stmt]
      exact gen_stmts_ok showF _ stmts vars
  | .mk (.ret e) line =>
      cases e <;> exact ⟨_, by simp only [gen_stmt]; rfl⟩
  | .mk .breakS line =>
      simp only [gen_stmt]
      cases hh : (emit_line_comment cg line).loop_stack.head? with
      | some lid => exact ⟨_, rfl⟩
      | none => exact ⟨_, rfl⟩
  | .mk .continueS line =>
      simp only [gen_stmt]
      cases hh : (emit_line_comment cg line).loop_stack.head? with
      | some lid => exact ⟨_, rfl⟩
      | none => exact ⟨_, rfl⟩
  | .mk (.exprS e) line => exact ⟨_, by simp only [gen_stmt]; rfl⟩
/-- `gen_stmt_opt` has no error path. -/
theorem gen_stmt_opt_ok (showF : F → String) (cg : CodeGen) (o : Option (Stmt F))
    (vars : List String) : ∃ cg', gen_stmt_opt showF cg o vars = .ok cg' := by
  match o with
  | some s =>
      simp only [gen_stmt_opt]
      exact gen_stmt_ok showF cg s vars
  | none => exact ⟨cg, by simp only [gen_stmt_opt]⟩
/-- `gen_stmts` has no error path. -/
theorem gen_stmts_ok (showF : F → String) (cg : CodeGen) (stmts : List (Stmt F))
    (vars : List String) : ∃ cg', gen_stmts showF cg stmts vars = .ok cg' := by
  match stmts with
  | [] => exact ⟨cg, by simp only [gen_stmts]⟩
  | s :: rest =>
      simp only [gen_stmts]
      refine except_bind_exists (gen_stmt_ok showF cg s vars) ?_
      intro cg1
      exact gen_stmts_ok showF cg1 rest vars
end

/-- `gen_stmt_with_result` has no error path. -/

theorem gen_stmt_with_result_ok (showF : F → String) (cg : CodeGen) (s : Stmt F)
    (vars : List String) : ∃ cg', gen_stmt_with_result showF cg s vars = .ok cg' := by
  match s with
  | .mk (.exprS e) line => exact ⟨_, by simp only [gen_stmt_with_result]; rfl⟩
  | .mk (.letS n e) line =>
      simp only [gen_stmt_with_result]; exact gen_stmt_ok showF cg _ vars
  | .mk (.constS n e) line =>
      simp only [gen_stmt_with_result]; exact gen_stmt_ok showF cg _ vars
  | .mk (.assign n e) line =>
      simp only [gen_stmt_with_result]; exact gen_stmt_ok showF cg _ vars
  | .mk (.ifS c t e) line =>
      simp only [gen_stmt_with_result]; exact gen_stmt_ok showF cg _ vars
  | .mk (.whileS c b) line =>
      simp only [gen_stmt_with_result]; exact gen_stmt_ok showF cg _ vars
  | .mk (.forS i c n b) line =>
      simp only [gen_stmt_with_result]; exact gen_stmt_ok showF cg _ vars
  | .mk (.block ss) line =>
      simp only [gen_stmt_with_result]; exact gen_stmt_ok showF cg _ vars
  | .mk (.ret e) line =>
      simp only [gen_stmt_with_result]; exact gen_stmt_ok showF cg _ vars
  | .mk .breakS line =>
      simp only [gen_stmt_with_result]; exact gen_stmt_ok showF cg _ vars
  | .mk .continueS line =>
      simp only [gen_stmt_with_result]; exact gen_stmt_ok showF cg _ vars

/-- `gen_stmts_with_result` has no error path. -/

theorem gen_stmts_with_result_ok (showF : F → String) (cg : CodeGen)
    (stmts : List (Stmt F)) (vars : List String) :
    ∃ cg', gen_stmts_with_result showF cg stmts vars = .ok cg' := by
  induction stmts generalizing cg with
  | nil => exact ⟨cg, by simp only [gen_stmts_with_result]⟩
  | cons s rest ih =>
      simp only [gen_stmts_with_result]
      refine except_bind_exists (gen_stmt_with_result_ok showF cg s vars) ?_
      intro cg1
      exact ih cg1

/-- `gen_function` has no error path. -/

theorem gen_function_ok (showF : F → String) (cg : CodeGen) (func : Function F) :
    ∃ cg', gen_function showF cg func = .ok cg' := by
  simp only [gen_function]
  refine except_bind_exists (gen_stmts_ok showF _ func.body _) ?_
  intro cg7
  exact ⟨_, rfl⟩

/-- `gen_start` has no error path. -/

theorem gen_start_ok (showF : F → String) (cg : CodeGen) (stmts : List (Stmt F)) :
    ∃ cg', gen_start showF cg stmts = .ok cg' := by
  simp only [gen_start]
  refine except_bind_exists (gen_stmts_with_result_ok showF _ stmts _) ?_
  intro cg6
  exact ⟨_, rfl⟩

/-- `gen_functions` has no error path. -/

theorem gen_functions_ok (showF : F → String) (cg : CodeGen)
    (fs : List (Function F)) : ∃ cg', gen_functions showF cg fs = .ok cg' := by
  induction fs generalizing cg with
  | nil => exact ⟨cg, by simp only [gen_functions]⟩
  | cons f rest ih =>
      simp only [gen_functions]
      refine except_bind_exists (gen_function_ok showF cg f) ?_
      intro cg1
      exact ih cg1

/-- C10.  `CodeGen::generate` has no error path: for every program AST —
whether or not it passed semantic analysis — code generation returns `Ok`.
Consequently the `Codegen` error kind is never produced by any compilation
(the pipeline's only error sources are the lexer, parser and semantic
phases); `CompilerError::codegen` is dead code. -/

theorem generate_always_ok (showF : F → String) (p : Program F) :
    ∃ out, generate showF p = .ok out := by
  simp only [generate]
  refine except_bind_exists (gen_functions_ok showF _ p.functions) ?_
  intro cg3
  refine except_bind_exists (gen_start_ok showF cg3 p.top_level) ?_
  intro cg4
  exact ⟨_, rfl⟩

/-! ### Lemmas about the lexer -/

/-- A decimal digit is not whitespace. -/

theorem digit_not_ws (c : Char) (h : c.isDigit = true) : c.isWhitespace = false := by
  simp only [Char.isDigit, decide_eq_true_eq, Bool.and_eq_true] at h
  obtain ⟨h1, h2⟩ := h
  simp only [Char.isWhitespace, Bool.or_eq_false_iff, decide_eq_false_iff_not]
  refine ⟨⟨⟨?_, ?_⟩, ?_⟩, ?_⟩ <;> (intro he; subst he; revert h1; decide)

/-- A decimal digit is not a slash, a NUL, or a dot. -/

theorem digit_ne (c : Char) (h : c.isDigit = true) :
    c ≠ '/' ∧ c ≠ '\x00' ∧ c ≠ '.' := by
  simp only [Char.isDigit, decide_eq_true_eq, Bool.and_eq_true] at h
  obtain ⟨h1, h2⟩ := h
  refine ⟨?_, ?_, ?_⟩ <;> (intro he; subst he; revert h1; decide)

/-- A letter or an underscore is not a decimal digit. -/

theorem alpha_or_us_not_digit (c : Char) (h : isAlphabetic c = true ∨ c = '_') :
    c.isDigit = false := by
  rcases h with h | h
  · simp only [isAlphabetic] at h
    simp only [Char.isAlpha, Char.isUpper, Char.isLower, Bool.or_eq_true,
      Bool.and_eq_true, decide_eq_true_eq] at h
    simp only [Char.isDigit, Bool.and_eq_false_iff, decide_eq_false_iff_not]
    rcases h with ⟨h1, _⟩ | ⟨h1, _⟩ <;>
    · refine Or.inr fun hle => ?_
      have h1' : 65 ≤ c.val.toNat ∨ 97 ≤ c.val.toNat := by
        first
        | exact Or.inl h1
        | exact Or.inr h1
      have hle' : c.val.toNat ≤ 57 := hle
      omega
  · subst h; decide

/-- The `_ if next.is_alphabetic() || next == '_'` arm of `read_number`:
a dot followed by a letter other than `e`/`E`, or by an underscore, is not
consumed as part of a float. -/

theorem is_float_dot_not_consumed (c : Char)
    (h : isAlphabetic c = true ∨ c = '_') (h5 : c ≠ 'e') (h6 : c ≠ 'E') :
    is_float_dot (some c) = false := by
  have hd := alpha_or_us_not_digit c h
  rcases h with h | h
  · simp [is_float_dot, hd, h5, h6, h]
  · subst h; decide

/-- `skip_whitespace` leaves input that starts with a non-whitespace
character untouched. -/

theorem skip_whitespace_no_ws (c : Char) (tl : List Char) (l : Nat)
    (h : c.isWhitespace = false) : skip_whitespace ⟨c :: tl, l⟩ = ⟨c :: tl, l⟩ := by
  simp [skip_whitespace, h]

/-- The digit loop consumes exactly a leading all-digit prefix, stopping at
a dot. -/

theorem read_digits_dot (ds : List Char) (acc tl : List Char) (l : Nat)
    (h : ds.all Char.isDigit = true) :
    read_digits ⟨ds ++ '.' :: tl, l⟩ acc = (acc ++ ds, ⟨'.' :: tl, l⟩) := by
  induction ds generalizing acc with
  | nil => simp [read_digits]
  | cons d ds' ih =>
      simp only [List.all_cons, Bool.and_eq_true] at h
      simp [read_digits, h.1, ih (acc ++ [d]) h.2]

/-- `read_number` on digits followed by `.` and a non-float continuation
char returns the integer token and leaves the dot unconsumed. -/

theorem read_number_digits_dot (pf : List Char → Option Unit)
    (ds : List Char) (c : Char) (rest : List Char) (l : Nat)
    (h1 : ds ≠ []) (h2 : ds.all Char.isDigit = true)
    (h3 : digitsVal ds ≤ 2147483647)
    (hfd : is_float_dot (some c) = false) :
    read_number pf ⟨ds ++ '.' :: c :: rest, l⟩ =
      .ok ((.number (digitsVal ds), l), ⟨'.' :: c :: rest, l⟩) := by
  have hrd := read_digits_dot ds [] (c :: rest) l h2
  simp only [read_number, hrd]
  simp [LexState.peek, LexState.peek2, List.headD, hfd, parse_i32_digits, h1, h2, h3]

/-- `next_token` on digits followed by `.` and a letter/underscore returns
the integer token with the dot left in the input. -/

theorem next_token_digits_dot (pf : List Char → Option Unit)
    (ds : List Char) (c : Char) (rest : List Char) (fuel l : Nat)
    (h1 : ds ≠ []) (h2 : ds.all Char.isDigit = true)
    (h3 : digitsVal ds ≤ 2147483647)
    (hfd : is_float_dot (some c) = false) :
    next_token pf (fuel + 1) ⟨ds ++ '.' :: c :: rest, l⟩ =
      some (.ok ((.number (digitsVal ds), l), ⟨'.' :: c :: rest, l⟩)) := by
  obtain ⟨d, ds', rfl⟩ : ∃ d ds', ds = d :: ds' := by
    cases ds with
    | nil => exact absurd rfl h1
    | cons d ds' => exact ⟨d, ds', rfl⟩
  have hd : d.isDigit = true := by
    simp only [List.all_cons, Bool.and_eq_true] at h2; exact h2.1
  have hws := digit_not_ws d hd
  have hne := digit_ne d hd
  have hrn := read_number_digits_dot pf (d :: ds') c rest l h1 h2 h3 hfd
  simp only [List.cons_append] at hrn
  simp [next_token, skip_whitespace_no_ws d _ l hws, LexState.peek,
    LexState.peek2, List.headD, hne.1, hne.2.1, hne.2.2, hd, hrn]

/-- `next_token` on input starting with `.` followed by a letter or
underscore is the Lexer error `Unexpected character: .` (there is no dot
token; `operator_token` falls through to its final arm). -/

theorem next_token_dot_err (pf : List Char → Option Unit)
    (c : Char) (rest : List Char) (fuel l : Nat)
    (h4 : isAlphabetic c = true ∨ c = '_') :
    next_token pf (fuel + 1) ⟨'.' :: c :: rest, l⟩ =
      some (.error (.lexer l "Unexpected character: .")) := by
  have hcd := alpha_or_us_not_digit c h4
  simp [next_token, skip_whitespace, LexState.peek, LexState.peek2, List.headD,
    peek2_is_digit, hcd, isAlphabetic, operator_token, LexState.advance]

/-! ## Claim theorems about the semantic analyzer (concrete programs) -/

/-- C2.  The claim (and the spec) says a function whose reached `return`
statements disagree in type — in particular a body
`if (1) return 1; else return 1.0;` — is rejected with a Semantic error.
The code does NOT reject it: `infer_return_type_from_stmts` merges the two
branch types of an `If` with `Option::or` (`then_type.or(else_type)`),
silently discarding the else-branch's differing type, so analysis succeeds
and infers return type `I32` from the then-branch alone.  This theorem
evaluates the analyzer at the failing input and shows it returns `Ok`. -/

theorem analyze_accepts_inconsistent_branch_returns :
    analyze progIfReturns =
      .ok ⟨[⟨"f", [], none, some .i32,
        [.mk (.ifS (.number 1) (.mk (.ret (.number 1)) 1)
              (some (.mk (.ret (.numberF32 ())) 1))) 1], 1⟩], []⟩ := by
  simp [progIfReturns, analyze, register_functions, analyze_pass1, analyze_pass2,
        analyze_function_with_params, insert_params, analyze_stmts, analyze_stmt,
        infer_expr_type, infer_args, infer_return_type_from_stmts,
        infer_return_loop, infer_return_stmt, write_back,
        SemState.new, SemState.enter_scope, SemState.exit_scope,
        SemState.insert_var, SemState.insert_fun, SemState.update_fun,
        SemState.lookup_fun, SemState.get_variable_type, SemState.get_variable_info,
        lookup_scopes, update_first, List.lookup, Except.bind]

/-- `find_mismatch` on two equal lists finds nothing. -/

theorem find_mismatch_self (ts : List Ty) (i : Nat) :
    find_mismatch ts ts i = none := by
  induction ts generalizing i with
  | nil => rfl
  | cons t rest ih => simp [find_mismatch, ih]

/-- `find_mismatch` on equal-length different lists finds an index. -/

theorem find_mismatch_of_ne (es as_ : List Ty) (i : Nat)
    (hlen : es.length = as_.length) (hne : es ≠ as_) :
    ∃ j e a, find_mismatch es as_ i = some (j, e, a) := by
  induction es generalizing as_ i with
  | nil =>
      cases as_ with
      | nil => exact absurd rfl hne
      | cons a arest => simp at hlen
  | cons e erest ih =>
      cases as_ with
      | nil => simp at hlen
      | cons a arest =>
          by_cases hea : e = a
          · subst hea
            have hne' : erest ≠ arest := by
              intro hc; exact hne (by rw [hc])
            have hlen' : erest.length = arest.length := by
              simpa using hlen
            obtain ⟨j, e1, a1, hj⟩ := ih arest (i + 1) hlen' hne'
            exact ⟨j, e1, a1, by simp [find_mismatch, hj]⟩
          · exact ⟨i, e, a, by simp [find_mismatch, hea]⟩

/-- C6.  For every call expression analyzed by the semantic phase (with
argument inference completing and the callee registered): if the callee's
`param_types` are unset they are fixed to the current argument types
(first-call-wins) and the call types as the callee's return type (default
`I32`); if they are set and equal to the argument types the call succeeds
without changing them; if they are set and differ (in count or in any
position) the analysis stops with a Semantic error at that call's line.  In
particular, in `function f(a){} f(1); f(1.0);` the second call fails with a
Semantic error at its line. -/

theorem infer_call_first_call_wins (st : SemState) (name : String)
    (args : List (Expr F)) (line : Nat) (arg_types : List Ty)
    (st1 : SemState) (fi : FunctionInfo)
    (hargs : infer_args st args line = .ok (arg_types, st1))
    (hfun : st1.lookup_fun name = some fi) :
    (fi.param_types = none →
       infer_expr_type st (.call name args) line =
         .ok (fi.return_type.getD .i32,
              st1.update_fun name fun f0 => { f0 with param_types := some arg_types })) ∧
    (fi.param_types = some arg_types →
       infer_expr_type st (.call name args) line =
         .ok (fi.return_type.getD .i32, st1)) ∧
    (∀ expected, fi.param_types = some expected → expected ≠ arg_types →
       ∃ e, infer_expr_type st (.call name args) line = .error e ∧
         e.line = line ∧ e.error_type = .semanticError) ∧
    analyze (F := Unit) progFirstCallWins =
      .error ⟨2, "Function 'f' parameter 0 type mismatch: expected I32, got F32",
              .semanticError⟩ := by
  refine ⟨?_, ?_, ?_, ?_⟩
  · intro hpt
    simp [infer_expr_type, hargs, hfun, hpt, Except.bind]
  · intro hpt
    simp [infer_expr_type, hargs, hfun, hpt, Except.bind, find_mismatch_self]
  · intro expected hpt hne
    by_cases hlen : expected.length = arg_types.length
    · obtain ⟨j, e1, a1, hj⟩ := find_mismatch_of_ne expected arg_types 0 hlen hne
      have hres : infer_expr_type st (.call name args) line =
          .error (.semantic line
            ("Function '" ++ name ++ "' parameter " ++ toString j ++
             " type mismatch: expected " ++ tyDebug e1 ++ ", got " ++ tyDebug a1)) := by
        simp [infer_expr_type, hargs, hfun, hpt, hlen, hj, Except.bind]
      exact ⟨_, hres, rfl, rfl⟩
    · have hres : infer_expr_type st (.call name args) line =
          .error (.semantic line
            ("Function '" ++ name ++ "' expects " ++ toString expected.length ++
             " arguments, got " ++ toString arg_types.length)) := by
        simp [infer_expr_type, hargs, hfun, hpt, hlen, Except.bind]
      exact ⟨_, hres, rfl, rfl⟩
  · simp [progFirstCallWins, analyze, register_functions, analyze_pass1,
        analyze_pass2, analyze_function_with_params, insert_params,
        analyze_stmts, analyze_stmt, infer_expr_type, infer_args,
        infer_return_type_from_stmts, infer_return_loop, infer_return_stmt,
        write_back, find_mismatch, tyDebug,
        SemState.new, SemState.enter_scope, SemState.exit_scope,
        SemState.insert_var, SemState.insert_fun, SemState.update_fun,
        SemState.lookup_fun, SemState.get_variable_type, SemState.get_variable_info,
        lookup_scopes, update_first, List.lookup, Except.bind]
    rfl

/-- Witness for C6: the first-call-wins branch of the theorem applied at a
concrete state (a registered function `g` with unset parameter types and a
single integer argument). -/

theorem infer_call_first_call_wins_witness :
    infer_expr_type (F := Unit)
      ⟨[[]], [("g", ⟨none, some .i32⟩)], 0⟩ (.call "g" [.number 3]) 5 =
      .ok (.i32, ⟨[[]], [("g", ⟨some [.i32], some .i32⟩)], 0⟩) := by
  have h := infer_call_first_call_wins (F := Unit)
      ⟨[[]], [("g", ⟨none, some .i32⟩)], 0⟩ "g" [.number 3] 5 [.i32]
      ⟨[[]], [("g", ⟨none, some .i32⟩)], 0⟩ ⟨none, some .i32⟩
      (by simp [infer_args, infer_expr_type, Except.bind])
      (by simp [SemState.lookup_fun, List.lookup])
  have h1 := h.1 rfl
  rw [h1]
  simp [SemState.update_fun, update_first, Option.getD]

/-- C4 counterexample.  The claim says that after successful semantic
analysis every `Function` node has `param_types = Some` (including functions
never called).  The code only sets `param_types` at a call site, so the
uncalled `function f(x){}` analyzes successfully with `param_types = None`
(while `return_type` is `Some I32`). -/

theorem analyze_uncalled_param_types_none :
    analyze progUncalled = .ok ⟨[⟨"f", ["x"], none, some .i32, [], 1⟩], []⟩ := by
  simp [progUncalled, analyze, register_functions, analyze_pass1, analyze_pass2,
        analyze_function_with_params, insert_params, analyze_stmts, analyze_stmt,
        infer_return_type_from_stmts, infer_return_loop, infer_return_stmt,
        write_back, SemState.new, SemState.enter_scope, SemState.exit_scope,
        SemState.insert_var, SemState.insert_fun, SemState.update_fun,
        SemState.lookup_fun, lookup_scopes, update_first, List.lookup,
        Except.bind]

/-- C5 counterexample.  The claim (and spec §9) says a function that is only
called from other functions — never from top-level — keeps parameter types
`I`.  In the code, the first-pass analysis of `g`'s body analyzes the call
`h(1.0)` and fixes `h`'s `param_types` to `[F32]`; the second pass then
re-analyzes `h` with a float parameter, so `h` ends with `param_types =
Some [F32]` and `return_type = Some F32` — refined away from `I`. -/

theorem analyze_inner_call_refines_params :
    analyze progInnerCall =
      .ok ⟨[⟨"g", [], none, some .i32,
             [.mk (.exprS (.call "h" [.numberF32 ()])) 1], 1⟩,
            ⟨"h", ["x"], some [.f32], some .f32,
             [.mk (.ret (.identifier "x")) 2], 2⟩], []⟩ := by
  simp [progInnerCall, analyze, register_functions, analyze_pass1, analyze_pass2,
        analyze_function_with_params, insert_params, analyze_stmts, analyze_stmt,
        infer_expr_type, infer_args, infer_return_type_from_stmts,
        infer_return_loop, infer_return_stmt, write_back, find_mismatch, tyDebug,
        SemState.new, SemState.enter_scope, SemState.exit_scope,
        SemState.insert_var, SemState.insert_fun, SemState.update_fun,
        SemState.lookup_fun, SemState.get_variable_type, SemState.get_variable_info,
        lookup_scopes, update_first, List.lookup, Except.bind]

/-! ## Claim theorems about the lexer -/

/-- C3 counterexample.  The claim says that on `3.foo` the lexer succeeds,
emitting the integer token `3` and then a separate token for the `.`, and
that the failure is a Parser error.  In the code the lexer has no dot
token at all: after emitting `3` (leaving the dot unconsumed), the next
`next_token` call reaches the final `match` arm and fails with the LEXER
error `Unexpected character: .` — tokenization never succeeds, and the
parser is never reached. -/

theorem tokenize_dot_ident_lexer_fails :
    tokenize_all (fun _ => (none : Option Unit)) 2 ['3', '.', 'f', 'o', 'o'] =
      some (.error (.lexer 1 "Unexpected character: .")) := by
  have hA := next_token_digits_dot (fun _ => (none : Option Unit))
    ['3'] 'f' ['o', 'o'] 1 1 (by decide) (by decide) (by decide) (by decide)
  have hB := next_token_dot_err (fun _ => (none : Option Unit))
    'f' ['o', 'o'] 0 1 (Or.inl (by decide))
  simp only [List.cons_append, List.nil_append] at hA
  simp [tokenize_all, tokenize, hA, hB, Token.is_eof]

/-- C3 (amended).  For every input fragment consisting of a non-empty
digit sequence (with value fitting in `i32`) immediately followed by `.`
and then a letter other than `e`/`E`, or an underscore: `next_token` does
emit the integer token and leaves the `.` unconsumed, but the next
`next_token` call fails with the Lexer error `Unexpected character: .`
(there is no dot token), so tokenizing such input yields a LEXER error —
the parser is never reached. -/

theorem lexer_digit_dot_fragment (pf : List Char → Option Unit)
    (ds : List Char) (c : Char) (rest : List Char) (fuel l : Nat)
    (h1 : ds ≠ []) (h2 : ds.all Char.isDigit = true)
    (h3 : digitsVal ds ≤ 2147483647)
    (h4 : isAlphabetic c = true ∨ c = '_') (h5 : c ≠ 'e') (h6 : c ≠ 'E') :
    next_token pf (fuel + 1) ⟨ds ++ '.' :: c :: rest, l⟩ =
      some (.ok ((.number (digitsVal ds), l), ⟨'.' :: c :: rest, l⟩)) ∧
    next_token pf (fuel + 1) ⟨'.' :: c :: rest, l⟩ =
      some (.error (.lexer l "Unexpected character: .")) ∧
    tokenize_all pf (fuel + 2) (ds ++ '.' :: c :: rest) =
      some (.error (.lexer 1 "Unexpected character: .")) := by
  have hfd := is_float_dot_not_consumed c h4 h5 h6
  refine ⟨next_token_digits_dot pf ds c rest fuel l h1 h2 h3 hfd,
    next_token_dot_err pf c rest fuel l h4, ?_⟩
  have hA := next_token_digits_dot pf ds c rest (fuel + 1) 1 h1 h2 h3 hfd
  have hB := next_token_dot_err pf c rest fuel 1 h4
  simp [tokenize_all, tokenize, hA, hB, Token.is_eof]

/-- Witness for the amended C3 theorem at `4.x2`. -/

theorem lexer_digit_dot_fragment_witness :
    (['4'] : List Char) ≠ [] ∧ (['4'] : List Char).all Char.isDigit = true ∧
    digitsVal ['4'] ≤ 2147483647 ∧
    (isAlphabetic 'x' = true ∨ 'x' = '_') ∧ 'x' ≠ 'e' ∧ 'x' ≠ 'E' ∧
    tokenize_all (fun _ => (none : Option Unit)) 2 (['4'] ++ '.' :: 'x' :: ['2']) =
      some (.error (.lexer 1 "Unexpected character: .")) :=
  ⟨by decide, by decide, by decide, Or.inl (by decide), by decide, by decide,
   (lexer_digit_dot_fragment (fun _ => none) ['4'] 'x' ['2'] 0 1
     (by decide) (by decide) (by decide) (Or.inl (by decide)) (by decide)
     (by decide)).2.2⟩

end JsWasm
